import Mathlib

/-!
Shallow embedding of `src/main.py` (ThundeRatz/FollowerTrackCreator).

The program is a PyQt5 widget whose algorithmic core is the method
`DrawingApp.update_scene` together with the helpers `draw_line`, `draw_arc`,
`draw_mark`, `draw_rect`, `draw_label`, `adjust_view_to_rect` and the module
function `deg_to_rad`.  The embedding below models exactly that core:

* the input is the list of source lines (Python `toPlainText().splitlines()`);
* each line is tokenized with whitespace splitting (Python `line.split()`);
* numeric tokens go through a model of Python's `float` builtin, except that
  values are exact rationals instead of IEEE doubles (decimal literals with
  optional sign, fraction and exponent; `inf`/`nan`/underscores are out of
  scope of the model);
* the graphics scene is modeled as the ordered list of drawing calls
  (`Primitive`), and the two `setSceneRect` calls are recorded in the state;
  pixel-level concerns (pens, fonts, `fitInView`, the `-20` offset that
  `draw_label` applies when positioning the created text item) are
  presentation details outside the model;
* `math.cos`, `math.sin` and `math.pi` are external library functions; the
  interpreter is parameterized by a `Trig` record so that the development
  stays polymorphic, and the real program is the instantiation `realTrig`
  over `ℝ` with `Real.cos`, `Real.sin`, `Real.pi`;
* a failed `float` conversion raises `ValueError`; the single `except` block
  of `update_scene` catches it and shows a dialog whose text is the fixed
  Portuguese sentence plus `str(e)`.  The error value is modeled by
  `PyValueError`, which carries the offending token (that is all the
  information the raised `ValueError` holds).
-/

/-- Model of `math.cos`, `math.sin`, `math.pi` from the Python `math`
module, as used by the source.  The actual program uses the real functions,
instantiated in `realTrig`; keeping them as a parameter lets the
trigonometry-independent parts of the development be evaluated. -/
structure Trig (α : Type) where
  cos : α → α
  sin : α → α
  pi : α

/-- The real instantiation: the trigonometry actually used by the program
(`math.cos`, `math.sin`, `math.pi` over exact reals). -/
noncomputable def realTrig : Trig ℝ :=
  ⟨Real.cos, Real.sin, Real.pi⟩

/-- A degenerate computable instantiation over `ℚ`, used only to evaluate
the trigonometry-independent observables of the interpreter (tick counts,
errors, flags, scene-rect bookkeeping) on concrete inputs. -/
def ratTrig : Trig ℚ :=
  ⟨fun _ => 0, fun _ => 0, 0⟩

/-- Source `deg_to_rad` (line 237): `math.pi * angle / 180`. -/
def deg_to_rad {α : Type} [Field α] (t : Trig α) (angle : α) : α :=
  t.pi * angle / 180

/-- One drawing call issued to the `QGraphicsScene`, in issue order.

* `segment x1 y1 x2 y2` — `scene.addLine` from `draw_line`;
* `arcPath cx cy radius startAngle sweep` — `scene.addPath` from
  `draw_arc` (the path is the circular arc of the given center, radius,
  Qt start angle in degrees and signed sweep in degrees);
* `rect w h` — `scene.addRect(0, 0, w, h)` from `draw_rect`;
* `tick x y theta inverted` — `scene.addLine` from `draw_mark`, recorded by
  the pose argument and the `invert` flag (the two endpoints are the fixed
  `MARK_OFFSET`/`MARK_SIZE` construction perpendicular to `theta`);
* `label x y text` — `scene.addText` from `draw_label`, recorded by the
  anchor passed to `draw_label` and the shown text. -/
inductive Primitive (α : Type) where
  | segment (x1 y1 x2 y2 : α)
  | arcPath (cx cy radius startAngle sweep : α)
  | rect (w h : α)
  | tick (x y theta : α) (inverted : Bool)
  | label (x y : α) (text : String)
deriving DecidableEq

/-- The model of the raised `ValueError` from a failed `float(token)` call:
Python's exception message is
`could not convert string to float: '<token>'`; the exception carries the
offending token and nothing else (in particular, no line number). -/
structure PyValueError where
  token : List Char
deriving DecidableEq

/-- The message of the modeled `ValueError`, Python's `str(e)`. -/
def PyValueError.message (e : PyValueError) : String :=
  "could not convert string to float: '" ++ String.mk e.token ++ "'"

/-- The text shown by the error dialog of `update_scene` (lines 183-189):
the fixed sentence plus `str(e)`.  This is the only user-visible error
output of the program. -/
def dialogText (e : PyValueError) : String :=
  "Comando inválido ou erro de sintaxe.\n" ++ e.message

/-- The mutable state of one `update_scene` run: the turtle pose
(`x`, `y`, `theta` — fields `x, y, theta` of the Python loop), the two
booleans `first_step` / `first_mark`, the current scene rectangle (width and
height of the last `setSceneRect(0, 0, w, h)` call, `none` if never set in
this run), the history of all `setSceneRect` calls of the run, and the
ordered list of drawing calls issued so far. -/
structure TState (α : Type) where
  x : α
  y : α
  theta : α
  first_step : Bool
  first_mark : Bool
  sceneRect : Option (α × α)
  rectHist : List (α × α)
  prims : List (Primitive α)
deriving DecidableEq

/-- The state at the top of `update_scene`: `scene.clear()`,
`x, y, theta = 0.0, 0.0, 0.0`, `first_step = True`, `first_mark = True`. -/
def initState {α : Type} [Field α] : TState α :=
  { x := 0, y := 0, theta := 0, first_step := true, first_mark := true,
    sceneRect := none, rectHist := [], prims := [] }

/-- Append one drawing call to the scene. -/
def emit {α : Type} (s : TState α) (p : Primitive α) : TState α :=
  { s with prims := s.prims ++ [p] }

/-- Model of `scene.setSceneRect(0, 0, w, h)`: the scene rectangle is
overwritten and the call is recorded in the history. -/
def setSceneRect {α : Type} (s : TState α) (w h : α) : TState α :=
  { s with sceneRect := some (w, h), rectHist := s.rectHist ++ [(w, h)] }

/-- Source `adjust_view_to_rect` (lines 113-118): it sets the scene rect to
`(0, 0, largura, altura)` and then fits the view to that rectangle adjusted
by 20 units on each side; the `fitInView` call is pure rendering and is not
recorded. -/
def adjust_view_to_rect {α : Type} (s : TState α) (largura altura : α) : TState α :=
  setSceneRect s largura altura

/-- Whitespace-splitting helper: accumulate the current token (reversed). -/
def splitWSAux : List Char → List Char → List (List Char)
  | [], cur => if cur = [] then [] else [cur.reverse]
  | c :: rest, cur =>
    if c.isWhitespace then
      if cur = [] then splitWSAux rest [] else cur.reverse :: splitWSAux rest []
    else splitWSAux rest (c :: cur)

/-- Model of Python `str.split()` with no arguments: split on runs of
whitespace, discarding empty tokens. -/
def splitWS (cs : List Char) : List (List Char) :=
  splitWSAux cs []

/-- ASCII lower-casing of one character (the command keywords compared
against are all ASCII). -/
def lowerChar (c : Char) : Char :=
  if 'A' ≤ c ∧ c ≤ 'Z' then Char.ofNat (c.toNat + 32) else c

/-- Model of Python `str.lower()` on one token. -/
def lowerTok (cs : List Char) : List Char :=
  cs.map lowerChar

/-- Value of a digit string (assumed all digits). -/
def digitsVal (cs : List Char) : ℕ :=
  cs.foldl (fun a c => 10 * a + (c.toNat - 48)) 0

/-- Whether every character is a decimal digit. -/
def allDigits (cs : List Char) : Bool :=
  cs.all (·.isDigit)

/-- The mantissa part of a Python float literal: digits with at most one
decimal point, at least one digit overall. -/
def pyMantissa? (cs : List Char) : Option ℚ :=
  match cs.splitOn '.' with
  | [w] =>
    if w ≠ [] ∧ allDigits w then some (digitsVal w) else none
  | [w, f] =>
    if (w ≠ [] ∨ f ≠ []) ∧ allDigits w ∧ allDigits f then
      some ((digitsVal w : ℚ) + (digitsVal f : ℚ) / 10 ^ f.length)
    else none
  | _ => none

/-- The exponent part of a Python float literal: an optionally signed
nonempty digit string. -/
def pyExp? (cs : List Char) : Option ℤ :=
  match cs with
  | '+' :: r => if r ≠ [] ∧ allDigits r then some (digitsVal r) else none
  | '-' :: r => if r ≠ [] ∧ allDigits r then some (-(digitsVal r : ℤ)) else none
  | r => if r ≠ [] ∧ allDigits r then some (digitsVal r) else none

/-- An unsigned Python float literal: mantissa with optional `e`/`E`
exponent. -/
def pyUnsigned? (cs : List Char) : Option ℚ :=
  match cs.span (fun c => !(c == 'e' || c == 'E')) with
  | (m, []) => pyMantissa? m
  | (m, _ :: ex) =>
    match pyMantissa? m, pyExp? ex with
    | some q, some z => some (q * (10 : ℚ) ^ z)
    | _, _ => none

/-- Model of Python's `float(token)` on a token produced by `str.split()`:
`some` exact rational value on a decimal literal, `none` when the call
raises `ValueError`.  (`inf`/`nan` and digit-group underscores are outside
the model.) -/
def pyFloat? (cs : List Char) : Option ℚ :=
  match cs with
  | '+' :: r => pyUnsigned? r
  | '-' :: r => (pyUnsigned? r).map Neg.neg
  | r => pyUnsigned? r

/-- Source constant `RECT_MARGIN = 30` (line 61). -/
def RECT_MARGIN {α : Type} [Field α] : α := 30

/-- Source `draw_line` (lines 207-211): the emitted `addLine` segment and
the returned new position. -/
def draw_line {α : Type} [Field α] (t : Trig α) (x y theta d : α) :
    α × α × Primitive α :=
  let dx := d * t.cos (deg_to_rad t theta)
  let dy := -d * t.sin (deg_to_rad t theta)
  (x + dx, y + dy, Primitive.segment x y (x + dx) (y + dy))

/-- Source `draw_arc` (lines 213-231): the emitted `addPath` arc and the
returned new pose.  `side` is the raw second token; the arc is drawn inside
the square of center `(cx, cy)` and half-side `radius`, from Qt angle
`theta + center_turn` with signed sweep `angle`. -/
def draw_arc {α : Type} [Field α] (t : Trig α) (x y theta : α)
    (side : List Char) (radius angle0 : α) : α × α × α × Primitive α :=
  let center_turn : α := if side = "l".data then -90 else 90
  let angle : α := if side ≠ "l".data then -angle0 else angle0
  let cx := x + radius * t.cos (deg_to_rad t (theta - center_turn))
  let cy := y - radius * t.sin (deg_to_rad t (theta - center_turn))
  let prim := Primitive.arcPath cx cy radius (theta + center_turn) angle
  let theta2 := theta + angle
  let nx := cx + radius * t.cos (deg_to_rad t (theta2 + center_turn))
  let ny := cy - radius * t.sin (deg_to_rad t (theta2 + center_turn))
  (nx, ny, theta2, prim)

/-- The two mark-drawing `if`s at the top of the loop body
(`update_scene` lines 139-144): from a non-setup state, a normal tick is
emitted when the start mark was already placed, and otherwise the inverted
start mark is emitted and `first_mark` is cleared. -/
def tickPhase {α : Type} (s : TState α) : TState α :=
  let s1 :=
    if s.first_step = false ∧ s.first_mark = false then
      emit s (Primitive.tick s.x s.y s.theta false)
    else s
  if s1.first_step = false ∧ s1.first_mark = true then
    { emit s1 (Primitive.tick s1.x s1.y s1.theta true) with first_mark := false }
  else s1

/-- The first dispatch chain of the loop body (`update_scene` lines
146-156): `inicio` with 4 tokens sets the pose, `tamanho` with 3 tokens
sets the scene rect (with margin), fits the view and draws the bounding
rectangle, and every other non-blank line clears `first_step`.  A failed
`float` conversion aborts with the `ValueError` of the first failing
token. -/
def chain1 {α : Type} [Field α] (parts : List (List Char)) (s : TState α) :
    TState α × Option PyValueError :=
  let cmd := lowerTok (parts.getD 0 [])
  if cmd = "inicio".data ∧ parts.length = 4 then
    match pyFloat? (parts.getD 1 []) with
    | none => (s, some ⟨parts.getD 1 []⟩)
    | some qx =>
      match pyFloat? (parts.getD 2 []) with
      | none => (s, some ⟨parts.getD 2 []⟩)
      | some qy =>
        match pyFloat? (parts.getD 3 []) with
        | none => (s, some ⟨parts.getD 3 []⟩)
        | some qt => ({ s with x := (qx : α), y := (qy : α), theta := (qt : α) }, none)
  else if cmd = "tamanho".data ∧ parts.length = 3 then
    match pyFloat? (parts.getD 1 []) with
    | none => (s, some ⟨parts.getD 1 []⟩)
    | some qw =>
      match pyFloat? (parts.getD 2 []) with
      | none => (s, some ⟨parts.getD 2 []⟩)
      | some qh =>
        let largura : α := (qw : α)
        let altura : α := (qh : α)
        let s1 := setSceneRect s (largura + 2 * RECT_MARGIN) (altura + 2 * RECT_MARGIN)
        let s2 := adjust_view_to_rect s1 largura altura
        (emit s2 (Primitive.rect largura altura), none)
  else
    ({ s with first_step := false }, none)

/-- The second dispatch chain of the loop body (`update_scene` lines
158-180): `reta` with 2 tokens draws a segment (plus optional midpoint
label) and advances the position; `arco` with 4 tokens computes the label
anchor on the arc midpoint, draws the arc via `draw_arc` (plus optional
label) and advances the pose; anything else does nothing. -/
def chain2 {α : Type} [Field α] (t : Trig α) (show_labels : Bool) (idx : ℕ)
    (parts : List (List Char)) (s : TState α) : TState α × Option PyValueError :=
  let cmd := lowerTok (parts.getD 0 [])
  if cmd = "reta".data ∧ parts.length = 2 then
    match pyFloat? (parts.getD 1 []) with
    | none => (s, some ⟨parts.getD 1 []⟩)
    | some qd =>
      let d : α := (qd : α)
      let r := draw_line t s.x s.y s.theta d
      let s1 := emit s r.2.2
      let s2 :=
        if show_labels then
          emit s1 (Primitive.label ((s.x + r.1) / 2) ((s.y + r.2.1) / 2) (toString (idx + 1)))
        else s1
      ({ s2 with x := r.1, y := r.2.1 }, none)
  else if cmd = "arco".data ∧ parts.length = 4 then
    let side := parts.getD 1 []
    match pyFloat? (parts.getD 2 []) with
    | none => (s, some ⟨parts.getD 2 []⟩)
    | some qr =>
      match pyFloat? (parts.getD 3 []) with
      | none => (s, some ⟨parts.getD 3 []⟩)
      | some qa =>
        let radius : α := (qr : α)
        let angle : α := (qa : α)
        let center_turn : α := if side = "l".data then -90 else 90
        let cx := s.x + radius * t.cos (deg_to_rad t (s.theta - center_turn))
        let cy := s.y - radius * t.sin (deg_to_rad t (s.theta - center_turn))
        let start_angle := s.theta + center_turn
        let mid_angle := start_angle + (if side = "l".data then angle / 2 else -angle / 2)
        let mx := cx + radius * t.cos (deg_to_rad t mid_angle)
        let my := cy - radius * t.sin (deg_to_rad t mid_angle)
        let r := draw_arc t s.x s.y s.theta side radius angle
        let s1 := emit s r.2.2.2
        let s2 :=
          if show_labels then emit s1 (Primitive.label mx my (toString (idx + 1)))
          else s1
        ({ s2 with x := r.1, y := r.2.1, theta := r.2.2.1 }, none)
  else (s, none)

/-- One iteration of the `update_scene` loop on the line of (0-based)
index `idx`: blank lines are skipped before anything else; otherwise the
tick phase runs, then the first chain, then (if no exception was raised)
the second chain. -/
def processLine {α : Type} [Field α] (t : Trig α) (show_labels : Bool)
    (idx : ℕ) (line : String) (s : TState α) : TState α × Option PyValueError :=
  let parts := splitWS line.data
  if parts = [] then (s, none)
  else
    let s1 := tickPhase s
    match chain1 parts s1 with
    | (s2, some e) => (s2, some e)
    | (s2, none) => chain2 t show_labels idx parts s2

/-- The `for idx, line in enumerate(lines)` loop: process the lines in
order, starting at index `idx`; the first raised exception aborts the loop,
keeping everything already drawn in the scene. -/
def runFrom {α : Type} [Field α] (t : Trig α) (show_labels : Bool) :
    ℕ → List String → TState α → TState α × Option PyValueError
  | _, [], s => (s, none)
  | idx, l :: ls, s =>
    match processLine t show_labels idx l s with
    | (s1, none) => runFrom t show_labels (idx + 1) ls s1
    | (s1, some e) => (s1, some e)

/-- The whole `update_scene` body on the given source lines: run the loop
from the initial state; on normal completion the final inverted mark is
drawn (line 182), and on an exception the partially built scene is kept and
the error dialog is shown (lines 183-189). -/
def run {α : Type} [Field α] (t : Trig α) (show_labels : Bool)
    (lines : List String) : TState α × Option PyValueError :=
  match runFrom t show_labels 0 lines initState with
  | (s, none) => (emit s (Primitive.tick s.x s.y s.theta true), none)
  | (s, some e) => (s, some e)

/-- Whether a drawing call is a tick mark (`draw_mark`). -/
def isTickB {α : Type} : Primitive α → Bool
  | .tick _ _ _ _ => true
  | _ => false

/-- Whether a drawing call is an inverted tick mark. -/
def isInvTickB {α : Type} : Primitive α → Bool
  | .tick _ _ _ b => b
  | _ => false

/-- Whether a drawing call is a motion primitive (segment or arc). -/
def isMotionB {α : Type} : Primitive α → Bool
  | .segment _ _ _ _ => true
  | .arcPath _ _ _ _ _ => true
  | _ => false

/-- Whether a drawing call is a text label. -/
def isLabelB {α : Type} : Primitive α → Bool
  | .label _ _ _ => true
  | _ => false

/-- Number of tick marks among the drawing calls. -/
def countTicks {α : Type} (ps : List (Primitive α)) : ℕ :=
  ps.countP isTickB

/-- Number of inverted tick marks among the drawing calls. -/
def countInvTicks {α : Type} (ps : List (Primitive α)) : ℕ :=
  ps.countP isInvTickB

/-- A line that `line.split()` turns into no tokens: skipped by the loop. -/
def blankB (l : String) : Bool :=
  decide (splitWS l.data = [])

/-- A line dispatched to a setup branch of the first chain: a well-formed
`inicio` (4 tokens) or `tamanho` (3 tokens) line.  Such a line keeps
`first_step` set.  (A blank line satisfies neither disjunct.) -/
def setupB (l : String) : Bool :=
  decide
    ((lowerTok ((splitWS l.data).getD 0 []) = "inicio".data ∧
        (splitWS l.data).length = 4) ∨
      (lowerTok ((splitWS l.data).getD 0 []) = "tamanho".data ∧
        (splitWS l.data).length = 3))

/-- A non-blank line that clears `first_step`: every non-blank line that is
not a well-formed `inicio`/`tamanho` line (motion commands, unrecognized
keywords, wrong argument counts). -/
def clearingB (l : String) : Bool :=
  !blankB l && !setupB l

/-- A well-formed `inicio` line (the only kind of line that overwrites the
pose directly). -/
def inicioLineB (l : String) : Bool :=
  decide (lowerTok ((splitWS l.data).getD 0 []) = "inicio".data ∧
    (splitWS l.data).length = 4)

/-- A motion-shaped line: `reta` with 2 tokens or `arco` with 4 tokens. -/
def motionLineB (l : String) : Bool :=
  decide
    ((lowerTok ((splitWS l.data).getD 0 []) = "reta".data ∧
        (splitWS l.data).length = 2) ∨
      (lowerTok ((splitWS l.data).getD 0 []) = "arco".data ∧
        (splitWS l.data).length = 4))

theorem emit_prims {α : Type} (s : TState α) (p : Primitive α) :
    (emit s p).prims = s.prims ++ [p] := rfl

theorem tickPhase_of_first_step {α : Type} (s : TState α) (h : s.first_step = true) :
    tickPhase s = s := by
  unfold tickPhase
  simp [h]

theorem tickPhase_of_not_first_step {α : Type} (s : TState α) (h : s.first_step = false) :
    tickPhase s =
      { emit s (Primitive.tick s.x s.y s.theta s.first_mark) with first_mark := false } := by
  unfold tickPhase
  cases hm : s.first_mark <;> simp [h, hm, emit]

theorem chain1_else {α : Type} [Field α] (parts : List (List Char)) (s : TState α)
    (h1 : ¬(lowerTok (parts.getD 0 []) = "inicio".data ∧ parts.length = 4))
    (h2 : ¬(lowerTok (parts.getD 0 []) = "tamanho".data ∧ parts.length = 3)) :
    chain1 parts s = ({ s with first_step := false }, none) := by
  unfold chain1
  rw [if_neg h1, if_neg h2]

theorem chain1_first_mark {α : Type} [Field α] (parts : List (List Char)) (s : TState α) :
    (chain1 parts s).1.first_mark = s.first_mark := by
  simp only [chain1]
  split_ifs
  · cases pyFloat? (parts.getD 1 []) with
    | none => rfl
    | some qx =>
      cases pyFloat? (parts.getD 2 []) with
      | none => rfl
      | some qy => cases pyFloat? (parts.getD 3 []) <;> rfl
  · cases pyFloat? (parts.getD 1 []) with
    | none => rfl
    | some qw => cases pyFloat? (parts.getD 2 []) <;> rfl
  · rfl

theorem chain1_first_step_false {α : Type} [Field α] (parts : List (List Char))
    (s : TState α) (hfs : s.first_step = false) :
    (chain1 parts s).1.first_step = false := by
  simp only [chain1]
  split_ifs
  · cases pyFloat? (parts.getD 1 []) with
    | none => exact hfs
    | some qx =>
      cases pyFloat? (parts.getD 2 []) with
      | none => exact hfs
      | some qy => cases pyFloat? (parts.getD 3 []) <;> exact hfs
  · cases pyFloat? (parts.getD 1 []) with
    | none => exact hfs
    | some qw => cases pyFloat? (parts.getD 2 []) <;> exact hfs
  · rfl

theorem chain1_prims {α : Type} [Field α] (parts : List (List Char)) (s : TState α) :
    ∃ ps, (chain1 parts s).1.prims = s.prims ++ ps ∧
      ∀ p ∈ ps, isTickB p = false ∧ isMotionB p = false ∧ isLabelB p = false := by
  simp only [chain1]
  split_ifs
  · cases pyFloat? (parts.getD 1 []) with
    | none => exact ⟨[], by simp⟩
    | some qx =>
      cases pyFloat? (parts.getD 2 []) with
      | none => exact ⟨[], by simp⟩
      | some qy =>
        cases pyFloat? (parts.getD 3 []) <;> exact ⟨[], by simp⟩
  · cases pyFloat? (parts.getD 1 []) with
    | none => exact ⟨[], by simp⟩
    | some qw =>
      cases pyFloat? (parts.getD 2 []) with
      | none => exact ⟨[], by simp⟩
      | some qh =>
        refine ⟨[Primitive.rect (qw : α) (qh : α)], ?_, ?_⟩
        · simp [setSceneRect, adjust_view_to_rect, emit]
        · simp [isTickB, isMotionB, isLabelB]
  · exact ⟨[], by simp⟩

theorem chain1_err {α : Type} [Field α] (parts : List (List Char)) (s : TState α) :
    (chain1 parts s).2 = none ∨ (chain1 parts s).1 = s := by
  simp only [chain1]
  split_ifs
  · cases pyFloat? (parts.getD 1 []) with
    | none => exact Or.inr rfl
    | some qx =>
      cases pyFloat? (parts.getD 2 []) with
      | none => exact Or.inr rfl
      | some qy =>
        cases pyFloat? (parts.getD 3 []) with
        | none => exact Or.inr rfl
        | some qt => exact Or.inl rfl
  · cases pyFloat? (parts.getD 1 []) with
    | none => exact Or.inr rfl
    | some qw =>
      cases pyFloat? (parts.getD 2 []) with
      | none => exact Or.inr rfl
      | some qh => exact Or.inl rfl
  · exact Or.inl rfl

theorem chain1_pose {α : Type} [Field α] (parts : List (List Char)) (s : TState α)
    (h1 : ¬(lowerTok (parts.getD 0 []) = "inicio".data ∧ parts.length = 4)) :
    (chain1 parts s).1.x = s.x ∧ (chain1 parts s).1.y = s.y ∧
      (chain1 parts s).1.theta = s.theta := by
  unfold chain1
  rw [if_neg h1]
  split_ifs
  · cases pyFloat? (parts.getD 1 []) with
    | none => exact ⟨rfl, rfl, rfl⟩
    | some qw =>
      cases pyFloat? (parts.getD 2 []) <;> exact ⟨rfl, rfl, rfl⟩
  · exact ⟨rfl, rfl, rfl⟩

theorem chain2_else {α : Type} [Field α] (t : Trig α) (sl : Bool) (idx : ℕ)
    (parts : List (List Char)) (s : TState α)
    (h1 : ¬(lowerTok (parts.getD 0 []) = "reta".data ∧ parts.length = 2))
    (h2 : ¬(lowerTok (parts.getD 0 []) = "arco".data ∧ parts.length = 4)) :
    chain2 t sl idx parts s = (s, none) := by
  simp only [chain2]
  rw [if_neg h1, if_neg h2]

theorem chain2_flagsRect {α : Type} [Field α] (t : Trig α) (sl : Bool) (idx : ℕ)
    (parts : List (List Char)) (s : TState α) :
    (chain2 t sl idx parts s).1.first_step = s.first_step ∧
      (chain2 t sl idx parts s).1.first_mark = s.first_mark ∧
      (chain2 t sl idx parts s).1.sceneRect = s.sceneRect ∧
      (chain2 t sl idx parts s).1.rectHist = s.rectHist := by
  by_cases hreta : lowerTok (parts.getD 0 []) = "reta".data ∧ parts.length = 2
  · simp only [chain2]
    rw [if_pos hreta]
    cases pyFloat? (parts.getD 1 []) with
    | none => exact ⟨rfl, rfl, rfl, rfl⟩
    | some qd => cases sl <;> exact ⟨rfl, rfl, rfl, rfl⟩
  · by_cases harco : lowerTok (parts.getD 0 []) = "arco".data ∧ parts.length = 4
    · simp only [chain2]
      rw [if_neg hreta, if_pos harco]
      cases pyFloat? (parts.getD 2 []) with
      | none => exact ⟨rfl, rfl, rfl, rfl⟩
      | some qr =>
        cases pyFloat? (parts.getD 3 []) with
        | none => exact ⟨rfl, rfl, rfl, rfl⟩
        | some qa => cases sl <;> exact ⟨rfl, rfl, rfl, rfl⟩
    · rw [chain2_else t sl idx parts s hreta harco]
      exact ⟨rfl, rfl, rfl, rfl⟩

theorem chain2_prims {α : Type} [Field α] (t : Trig α) (sl : Bool) (idx : ℕ)
    (parts : List (List Char)) (s : TState α) :
    ∃ ps, (chain2 t sl idx parts s).1.prims = s.prims ++ ps ∧
      ∀ p ∈ ps, isTickB p = false := by
  by_cases hreta : lowerTok (parts.getD 0 []) = "reta".data ∧ parts.length = 2
  · simp only [chain2]
    rw [if_pos hreta]
    cases pyFloat? (parts.getD 1 []) with
    | none => exact ⟨[], by simp, by simp⟩
    | some qd =>
      cases sl with
      | false => exact ⟨_, rfl, by simp [draw_line, isTickB]⟩
      | true => exact ⟨_, List.append_assoc _ _ _, by simp [draw_line, isTickB]⟩
  · by_cases harco : lowerTok (parts.getD 0 []) = "arco".data ∧ parts.length = 4
    · simp only [chain2]
      rw [if_neg hreta, if_pos harco]
      cases pyFloat? (parts.getD 2 []) with
      | none => exact ⟨[], by simp, by simp⟩
      | some qr =>
        cases pyFloat? (parts.getD 3 []) with
        | none => exact ⟨[], by simp, by simp⟩
        | some qa =>
          cases sl with
          | false => exact ⟨_, rfl, by simp [draw_arc, isTickB]⟩
          | true => exact ⟨_, List.append_assoc _ _ _, by simp [draw_arc, isTickB]⟩
    · rw [chain2_else t sl idx parts s hreta harco]
      exact ⟨[], by simp, by simp⟩

theorem chain2_err {α : Type} [Field α] (t : Trig α) (sl : Bool) (idx : ℕ)
    (parts : List (List Char)) (s : TState α) :
    (chain2 t sl idx parts s).2 = none ∨ (chain2 t sl idx parts s).1 = s := by
  by_cases hreta : lowerTok (parts.getD 0 []) = "reta".data ∧ parts.length = 2
  · simp only [chain2]
    rw [if_pos hreta]
    cases pyFloat? (parts.getD 1 []) with
    | none => exact Or.inr rfl
    | some qd => exact Or.inl rfl
  · by_cases harco : lowerTok (parts.getD 0 []) = "arco".data ∧ parts.length = 4
    · simp only [chain2]
      rw [if_neg hreta, if_pos harco]
      cases pyFloat? (parts.getD 2 []) with
      | none => exact Or.inr rfl
      | some qr =>
        cases pyFloat? (parts.getD 3 []) with
        | none => exact Or.inr rfl
        | some qa => exact Or.inl rfl
    · rw [chain2_else t sl idx parts s hreta harco]
      exact Or.inl rfl

theorem chain2_theta_of_not_arco {α : Type} [Field α] (t : Trig α) (sl : Bool)
    (idx : ℕ) (parts : List (List Char)) (s : TState α)
    (h : ¬(lowerTok (parts.getD 0 []) = "arco".data ∧ parts.length = 4)) :
    (chain2 t sl idx parts s).1.theta = s.theta := by
  by_cases hreta : lowerTok (parts.getD 0 []) = "reta".data ∧ parts.length = 2
  · simp only [chain2]
    rw [if_pos hreta]
    cases pyFloat? (parts.getD 1 []) with
    | none => rfl
    | some qd => cases sl <;> rfl
  · rw [chain2_else t sl idx parts s hreta h]

theorem prims_ext_trans {α : Type} {a b c : TState α} {ps qs : List (Primitive α)}
    (h1 : b.prims = a.prims ++ ps) (h2 : c.prims = b.prims ++ qs) :
    c.prims = a.prims ++ (ps ++ qs) := by
  rw [h2, h1, List.append_assoc]

theorem chain1_first_step_of_setup {α : Type} [Field α] (parts : List (List Char))
    (s : TState α)
    (h : (lowerTok (parts.getD 0 []) = "inicio".data ∧ parts.length = 4) ∨
      (lowerTok (parts.getD 0 []) = "tamanho".data ∧ parts.length = 3)) :
    (chain1 parts s).1.first_step = s.first_step := by
  rcases h with h | h
  · simp only [chain1]
    rw [if_pos h]
    cases pyFloat? (parts.getD 1 []) with
    | none => rfl
    | some qx =>
      cases pyFloat? (parts.getD 2 []) with
      | none => rfl
      | some qy => cases pyFloat? (parts.getD 3 []) <;> rfl
  · have hni : ¬(lowerTok (parts.getD 0 []) = "inicio".data ∧ parts.length = 4) := by
      rintro ⟨h1, _⟩
      rw [h.1] at h1
      exact absurd h1 (by decide)
    simp only [chain1]
    rw [if_neg hni, if_pos h]
    cases pyFloat? (parts.getD 1 []) with
    | none => rfl
    | some qw => cases pyFloat? (parts.getD 2 []) <;> rfl

theorem processLine_blank {α : Type} [Field α] (t : Trig α) (sl : Bool) (i : ℕ)
    (l : String) (s : TState α) (h : splitWS l.data = []) :
    processLine t sl i l s = (s, none) := by
  simp only [processLine]
  rw [h]
  simp

theorem processLine_setup_true {α : Type} [Field α] (t : Trig α) (sl : Bool) (i : ℕ)
    (l : String) (s : TState α) (hfs : s.first_step = true)
    (hsh : (lowerTok ((splitWS l.data).getD 0 []) = "inicio".data ∧
        (splitWS l.data).length = 4) ∨
      (lowerTok ((splitWS l.data).getD 0 []) = "tamanho".data ∧
        (splitWS l.data).length = 3)) :
    (processLine t sl i l s).1.first_step = true ∧
      (processLine t sl i l s).1.first_mark = s.first_mark ∧
      ∃ ps, (processLine t sl i l s).1.prims = s.prims ++ ps ∧
        ∀ p ∈ ps, isTickB p = false := by
  by_cases hb : splitWS l.data = []
  · rw [processLine_blank t sl i l s hb]
    exact ⟨hfs, rfl, [], by simp, by simp⟩
  · simp only [processLine]
    rw [if_neg hb, tickPhase_of_first_step s hfs]
    rcases h1 : chain1 (splitWS l.data) s with ⟨s2, e2⟩
    have hfst : (chain1 (splitWS l.data) s).1 = s2 := by rw [h1]
    cases e2 with
    | some e =>
      have herr := chain1_err (splitWS l.data) s
      rw [h1] at herr
      rcases herr with herr | herr
      · simp at herr
      · dsimp only at herr ⊢
        rw [herr]
        exact ⟨hfs, rfl, [], by simp, by simp⟩
    | none =>
      dsimp only
      obtain ⟨hfs2, hfm2, hsc2, hrh2⟩ := chain2_flagsRect t sl i (splitWS l.data) s2
      obtain ⟨ps2, hps2, ht2⟩ := chain2_prims t sl i (splitWS l.data) s2
      obtain ⟨ps1, hps1, ht1⟩ := chain1_prims (splitWS l.data) s
      rw [hfst] at hps1
      refine ⟨?_, ?_, ps1 ++ ps2, prims_ext_trans hps1 hps2, ?_⟩
      · rw [hfs2, ← hfst, chain1_first_step_of_setup _ s hsh, hfs]
      · rw [hfm2, ← hfst, chain1_first_mark]
      · intro p hp
        rcases List.mem_append.mp hp with hp | hp
        · exact (ht1 p hp).1
        · exact ht2 p hp

theorem processLine_clearing_true {α : Type} [Field α] (t : Trig α) (sl : Bool) (i : ℕ)
    (l : String) (s : TState α) (hfs : s.first_step = true)
    (hb : ¬splitWS l.data = [])
    (hni : ¬(lowerTok ((splitWS l.data).getD 0 []) = "inicio".data ∧
      (splitWS l.data).length = 4))
    (hnt : ¬(lowerTok ((splitWS l.data).getD 0 []) = "tamanho".data ∧
      (splitWS l.data).length = 3)) :
    (processLine t sl i l s).1.first_step = false ∧
      (processLine t sl i l s).1.first_mark = s.first_mark ∧
      ∃ ps, (processLine t sl i l s).1.prims = s.prims ++ ps ∧
        ∀ p ∈ ps, isTickB p = false := by
  simp only [processLine]
  rw [if_neg hb, tickPhase_of_first_step s hfs, chain1_else _ s hni hnt]
  obtain ⟨hfs2, hfm2, _, _⟩ :=
    chain2_flagsRect t sl i (splitWS l.data) { s with first_step := false }
  obtain ⟨ps2, hps2, ht2⟩ :=
    chain2_prims t sl i (splitWS l.data) { s with first_step := false }
  exact ⟨hfs2, hfm2, ps2, hps2, ht2⟩

theorem processLine_cleared {α : Type} [Field α] (t : Trig α) (sl : Bool) (i : ℕ)
    (l : String) (s : TState α) (hb : ¬splitWS l.data = [])
    (hfs : s.first_step = false) :
    ∃ extra,
      (processLine t sl i l s).1.prims =
        s.prims ++ [Primitive.tick s.x s.y s.theta s.first_mark] ++ extra ∧
      (∀ p ∈ extra, isTickB p = false) ∧
      (processLine t sl i l s).1.first_step = false ∧
      (processLine t sl i l s).1.first_mark = false := by
  simp only [processLine]
  rw [if_neg hb, tickPhase_of_not_first_step s hfs]
  set s1 : TState α :=
    { emit s (Primitive.tick s.x s.y s.theta s.first_mark) with first_mark := false }
    with hs1
  have hs1p : s1.prims = s.prims ++ [Primitive.tick s.x s.y s.theta s.first_mark] := rfl
  have hs1fs : s1.first_step = false := hfs
  have hs1fm : s1.first_mark = false := rfl
  rcases h1 : chain1 (splitWS l.data) s1 with ⟨s2, e2⟩
  have hfst : (chain1 (splitWS l.data) s1).1 = s2 := by rw [h1]
  cases e2 with
  | some e =>
    have herr := chain1_err (splitWS l.data) s1
    rw [h1] at herr
    rcases herr with herr | herr
    · simp at herr
    · dsimp only at herr ⊢
      rw [herr]
      exact ⟨[], by simp [emit], by simp, hs1fs, hs1fm⟩
  | none =>
    dsimp only
    obtain ⟨hfs2, hfm2, _, _⟩ := chain2_flagsRect t sl i (splitWS l.data) s2
    obtain ⟨ps2, hps2, ht2⟩ := chain2_prims t sl i (splitWS l.data) s2
    obtain ⟨ps1, hps1, ht1⟩ := chain1_prims (splitWS l.data) s1
    rw [hfst] at hps1
    refine ⟨ps1 ++ ps2, ?_, ?_, ?_, ?_⟩
    · rw [prims_ext_trans hps1 hps2, hs1p, List.append_assoc]
    · intro p hp
      rcases List.mem_append.mp hp with hp | hp
      · exact (ht1 p hp).1
      · exact ht2 p hp
    · rw [hfs2, ← hfst, chain1_first_step_false _ s1 hs1fs]
    · rw [hfm2, ← hfst, chain1_first_mark, hs1fm]

/-- Number of non-blank lines of a list. -/
def nonblankCount (L : List String) : ℕ :=
  (L.filter (fun l => !blankB l)).length

theorem isTickB_of_inv {α : Type} (p : Primitive α) (h : isInvTickB p = true) :
    isTickB p = true := by
  cases p <;> simp_all [isTickB, isInvTickB]

theorem countTicks_append {α : Type} (a b : List (Primitive α)) :
    countTicks (a ++ b) = countTicks a + countTicks b :=
  List.countP_append _ _ _

theorem countInvTicks_append {α : Type} (a b : List (Primitive α)) :
    countInvTicks (a ++ b) = countInvTicks a + countInvTicks b :=
  List.countP_append _ _ _

theorem countTicks_eq_zero {α : Type} (a : List (Primitive α))
    (h : ∀ p ∈ a, isTickB p = false) : countTicks a = 0 := by
  apply List.countP_eq_zero.mpr
  intro p hp
  simp [h p hp]

theorem countInvTicks_eq_zero {α : Type} (a : List (Primitive α))
    (h : ∀ p ∈ a, isTickB p = false) : countInvTicks a = 0 := by
  apply List.countP_eq_zero.mpr
  intro p hp hinv
  have := isTickB_of_inv p hinv
  rw [h p hp] at this
  exact Bool.false_ne_true this

theorem runFrom_cons_of_ok {α : Type} [Field α] (t : Trig α) (sl : Bool) (i : ℕ)
    (l : String) (ls : List String) (s : TState α)
    (h : (processLine t sl i l s).2 = none) :
    runFrom t sl i (l :: ls) s = runFrom t sl (i + 1) ls (processLine t sl i l s).1 := by
  simp only [runFrom]
  rcases hp : processLine t sl i l s with ⟨s1, e1⟩
  rw [hp] at h
  cases e1 with
  | none => rfl
  | some e => simp at h

theorem runFrom_cons_of_err {α : Type} [Field α] (t : Trig α) (sl : Bool) (i : ℕ)
    (l : String) (ls : List String) (s : TState α) (e : PyValueError)
    (h : (processLine t sl i l s).2 = some e) :
    runFrom t sl i (l :: ls) s = ((processLine t sl i l s).1, some e) := by
  simp only [runFrom]
  rcases hp : processLine t sl i l s with ⟨s1, e1⟩
  rw [hp] at h
  dsimp only at h
  subst h
  rfl

theorem runFrom_ok_head {α : Type} [Field α] (t : Trig α) (sl : Bool) (i : ℕ)
    (l : String) (ls : List String) (s : TState α)
    (h : (runFrom t sl i (l :: ls) s).2 = none) :
    (processLine t sl i l s).2 = none := by
  rcases hp : (processLine t sl i l s).2 with _ | e
  · rfl
  · rw [runFrom_cons_of_err t sl i l ls s e hp] at h
    simp at h

theorem runFrom_append_of_ok {α : Type} [Field α] (t : Trig α) (sl : Bool) :
    ∀ (A : List String) (B : List String) (i : ℕ) (s : TState α),
      (runFrom t sl i A s).2 = none →
      runFrom t sl i (A ++ B) s =
        runFrom t sl (i + A.length) B (runFrom t sl i A s).1 := by
  intro A
  induction A with
  | nil => intro B i s _; simp [runFrom]
  | cons l ls ih =>
    intro B i s h
    have hok : (processLine t sl i l s).2 = none := runFrom_ok_head t sl i l ls s h
    rw [runFrom_cons_of_ok t sl i l ls s hok] at h
    rw [List.cons_append, runFrom_cons_of_ok t sl i l (ls ++ B) s hok,
      ih B (i + 1) (processLine t sl i l s).1 h,
      runFrom_cons_of_ok t sl i l ls s hok]
    have hidx : i + 1 + ls.length = i + (l :: ls).length := by
      simp [List.length_cons]
      omega
    rw [hidx]

theorem nonblankCount_cons_blank (l : String) (ls : List String)
    (h : blankB l = true) : nonblankCount (l :: ls) = nonblankCount ls := by
  simp [nonblankCount, h]

theorem nonblankCount_cons_nonblank (l : String) (ls : List String)
    (h : blankB l = false) : nonblankCount (l :: ls) = nonblankCount ls + 1 := by
  simp [nonblankCount, h]

theorem setupB_shape (l : String) (h : setupB l = true) :
    (lowerTok ((splitWS l.data).getD 0 []) = "inicio".data ∧
        (splitWS l.data).length = 4) ∨
      (lowerTok ((splitWS l.data).getD 0 []) = "tamanho".data ∧
        (splitWS l.data).length = 3) := by
  simpa [setupB] using h

theorem setupB_not_shape (l : String) (h : setupB l = false) :
    ¬(lowerTok ((splitWS l.data).getD 0 []) = "inicio".data ∧
        (splitWS l.data).length = 4) ∧
      ¬(lowerTok ((splitWS l.data).getD 0 []) = "tamanho".data ∧
        (splitWS l.data).length = 3) := by
  have := h
  simp only [setupB, decide_eq_false_iff_not, not_or] at this
  exact this

theorem clearingB_split (l : String) (h : clearingB l = true) :
    splitWS l.data ≠ [] ∧ setupB l = false := by
  simp only [clearingB, Bool.and_eq_true, Bool.not_eq_true'] at h
  refine ⟨?_, h.2⟩
  have := h.1
  simpa [blankB] using this

theorem clearingB_false_cases (l : String) (h : clearingB l = false) :
    blankB l = true ∨ setupB l = true := by
  by_cases hb : blankB l = true
  · exact Or.inl hb
  · right
    have hb' : blankB l = false := by
      cases hbb : blankB l
      · rfl
      · exact absurd hbb hb
    cases hs : setupB l with
    | false =>
      exfalso
      simp [clearingB, hb', hs] at h
    | true => rfl

theorem runFrom_cleared_counts {α : Type} [Field α] (t : Trig α) (sl : Bool) :
    ∀ (L : List String) (i : ℕ) (s : TState α),
      s.first_step = false → (runFrom t sl i L s).2 = none →
      countTicks (runFrom t sl i L s).1.prims =
        countTicks s.prims + nonblankCount L ∧
      countInvTicks (runFrom t sl i L s).1.prims =
        countInvTicks s.prims +
          (if s.first_mark = true ∧ nonblankCount L ≠ 0 then 1 else 0) := by
  intro L
  induction L with
  | nil => intro i s hfs hok; simp [runFrom, nonblankCount]
  | cons l ls ih =>
    intro i s hfs hok
    have hok1 : (processLine t sl i l s).2 = none := runFrom_ok_head t sl i l ls s hok
    rw [runFrom_cons_of_ok t sl i l ls s hok1] at hok ⊢
    by_cases hb : splitWS l.data = []
    · have h1 : (processLine t sl i l s).1 = s := by
        rw [processLine_blank t sl i l s hb]
      rw [h1] at hok ⊢
      have hnb : blankB l = true := by simp [blankB, hb]
      rw [nonblankCount_cons_blank l ls hnb]
      exact ih (i + 1) s hfs hok
    · obtain ⟨extra, hpr, hte, hfs1, hfm1⟩ := processLine_cleared t sl i l s hb hfs
      have IH := ih (i + 1) (processLine t sl i l s).1 hfs1 hok
      have hnb : blankB l = false := by simp [blankB, hb]
      rw [nonblankCount_cons_nonblank l ls hnb]
      have ht1 : countTicks [Primitive.tick s.x s.y s.theta s.first_mark] = 1 := by
        simp [countTicks, isTickB]
      constructor
      · rw [IH.1, hpr, countTicks_append, countTicks_append,
          countTicks_eq_zero extra hte, ht1]
        omega
      · rw [IH.2, hfm1]
        rw [hpr, countInvTicks_append, countInvTicks_append,
          countInvTicks_eq_zero extra hte]
        have ht2 : countInvTicks [Primitive.tick s.x s.y s.theta s.first_mark] =
            if s.first_mark = true then 1 else 0 := by
          cases hm : s.first_mark <;> simp [countInvTicks, isInvTickB]
        rw [ht2]
        cases hm : s.first_mark <;> simp

theorem nonblank_eq_clearing :
    ∀ L : List String, L.all (fun l => blankB l || clearingB l) = true →
      nonblankCount L = (L.filter clearingB).length := by
  intro L
  induction L with
  | nil => intro _; rfl
  | cons l ls ih =>
    intro h
    rw [List.all_cons, Bool.and_eq_true] at h
    cases hbl : blankB l with
    | true =>
      have hcl : clearingB l = false := by simp [clearingB, hbl]
      rw [nonblankCount_cons_blank l ls hbl]
      rw [List.filter_cons_of_neg (by simp [hcl])]
      exact ih h.2
    | false =>
      have hcl : clearingB l = true := by
        rcases Bool.or_eq_true_iff.mp h.1 with hc | hc
        · rw [hbl] at hc; exact absurd hc (by simp)
        · exact hc
      rw [nonblankCount_cons_nonblank l ls hbl]
      rw [List.filter_cons_of_pos (by simp [hcl])]
      simp [ih h.2]

theorem runFrom_setup_phase {α : Type} [Field α] (t : Trig α) (sl : Bool) :
    ∀ (L : List String) (i : ℕ) (s : TState α),
      (∀ l ∈ L, blankB l = true ∨ setupB l = true) →
      s.first_step = true → (runFrom t sl i L s).2 = none →
      (runFrom t sl i L s).1.first_step = true ∧
      (runFrom t sl i L s).1.first_mark = s.first_mark ∧
      ∃ ps, (runFrom t sl i L s).1.prims = s.prims ++ ps ∧
        ∀ p ∈ ps, isTickB p = false := by
  intro L
  induction L with
  | nil => intro i s _ hfs _; exact ⟨hfs, rfl, [], by simp [runFrom], by simp⟩
  | cons l ls ih =>
    intro i s hall hfs hok
    have hok1 : (processLine t sl i l s).2 = none := runFrom_ok_head t sl i l ls s hok
    rw [runFrom_cons_of_ok t sl i l ls s hok1] at hok ⊢
    rcases hall l (by simp) with hbl | hst
    · have h1 : (processLine t sl i l s).1 = s := by
        rw [processLine_blank t sl i l s (by simpa [blankB] using hbl)]
      rw [h1] at hok ⊢
      exact ih (i + 1) s (fun x hx => hall x (by simp [hx])) hfs hok
    · obtain ⟨hfs1, hfm1, ps1, hps1, ht1⟩ :=
        processLine_setup_true t sl i l s hfs (setupB_shape l hst)
      obtain ⟨hfs2, hfm2, ps2, hps2, ht2⟩ :=
        ih (i + 1) (processLine t sl i l s).1 (fun x hx => hall x (by simp [hx])) hfs1 hok
      refine ⟨hfs2, by rw [hfm2, hfm1], ps1 ++ ps2, prims_ext_trans hps1 hps2, ?_⟩
      intro p hp
      rcases List.mem_append.mp hp with hp | hp
      · exact ht1 p hp
      · exact ht2 p hp

theorem runFrom_tick_count {α : Type} [Field α] (t : Trig α) (sl : Bool) :
    ∀ (L : List String) (i : ℕ) (s : TState α),
      s.first_step = true → s.first_mark = true →
      (runFrom t sl i L s).2 = none →
      (L.dropWhile (fun l => !clearingB l)).all
        (fun l => blankB l || clearingB l) = true →
      countTicks (runFrom t sl i L s).1.prims =
        countTicks s.prims + ((L.filter clearingB).length - 1) ∧
      countInvTicks (runFrom t sl i L s).1.prims =
        countInvTicks s.prims +
          (if 2 ≤ (L.filter clearingB).length then 1 else 0) := by
  intro L
  induction L with
  | nil => intro i s _ _ _ _; simp [runFrom]
  | cons l ls ih =>
    intro i s hfs hfm hok hafter
    have hok1 : (processLine t sl i l s).2 = none := runFrom_ok_head t sl i l ls s hok
    rw [runFrom_cons_of_ok t sl i l ls s hok1] at hok ⊢
    cases hcl : clearingB l with
    | false =>
      have hafter' : (ls.dropWhile (fun l => !clearingB l)).all
          (fun l => blankB l || clearingB l) = true := by
        rw [List.dropWhile_cons] at hafter
        simpa [hcl] using hafter
      have hfilter : (l :: ls).filter clearingB = ls.filter clearingB :=
        List.filter_cons_of_neg (by simp [hcl])
      rw [hfilter]
      rcases clearingB_false_cases l hcl with hbl | hst
      · have h1 : (processLine t sl i l s).1 = s := by
          rw [processLine_blank t sl i l s (by simpa [blankB] using hbl)]
        rw [h1] at hok ⊢
        exact ih (i + 1) s hfs hfm hok hafter'
      · obtain ⟨hfs1, hfm1, ps1, hps1, ht1⟩ :=
          processLine_setup_true t sl i l s hfs (setupB_shape l hst)
        have IH := ih (i + 1) (processLine t sl i l s).1 hfs1 (by rw [hfm1]; exact hfm)
          hok hafter'
        rw [IH.1, IH.2, hps1, countTicks_append, countInvTicks_append,
          countTicks_eq_zero ps1 ht1, countInvTicks_eq_zero ps1 ht1]
        simp
    | true =>
      have hafter' : (l :: ls).all (fun l => blankB l || clearingB l) = true := by
        rw [List.dropWhile_cons] at hafter
        simpa [hcl] using hafter
      have hlsall : ls.all (fun l => blankB l || clearingB l) = true := by
        rw [List.all_cons, Bool.and_eq_true] at hafter'
        exact hafter'.2
      obtain ⟨hb, hsetf⟩ := clearingB_split l hcl
      obtain ⟨hnsh1, hnsh2⟩ := setupB_not_shape l hsetf
      obtain ⟨hfs1, hfm1, ps1, hps1, ht1⟩ :=
        processLine_clearing_true t sl i l s hfs hb hnsh1 hnsh2
      have hA := runFrom_cleared_counts t sl ls (i + 1) (processLine t sl i l s).1
        hfs1 hok
      have hnbeq : nonblankCount ls = (ls.filter clearingB).length :=
        nonblank_eq_clearing ls hlsall
      have hfilter : (l :: ls).filter clearingB = l :: ls.filter clearingB :=
        List.filter_cons_of_pos (by simp [hcl])
      rw [hfilter]
      constructor
      · rw [hA.1, hps1, countTicks_append, countTicks_eq_zero ps1 ht1, hnbeq]
        simp
      · rw [hA.2, hps1, countInvTicks_append, countInvTicks_eq_zero ps1 ht1,
          hfm1, hfm, hnbeq]
        simp only [List.length_cons]
        by_cases hc : (ls.filter clearingB).length = 0
        · simp [hc]
        · have h2 : 2 ≤ (ls.filter clearingB).length + 1 := by omega
          simp [hc, h2]

/-- The eight-line example program that `update_scene` is first run on: the
default text of the command editor (source lines 82-90). -/
def exampleLines : List String :=
  ["inicio 250 100 0", "tamanho 600 400", "reta 100", "reta 100",
    "arco r 100 180", "reta 300", "arco r 100 180", "reta 100"]

/-- C2, counterexample: on the eight-line example run itself (k = 6
motion/no-op lines after setup, run succeeds), the scene receives exactly 6
tick marks, not the 7 = k + 1 the claim asserts (the line that first clears
`first_step` emits no tick at all, so the in-loop ticks number k - 1, plus
one final inverted tick). -/
theorem claim_C2_cex :
    (exampleLines.filter clearingB).length = 6 ∧
      (run realTrig true exampleLines).2 = none ∧
      countTicks ((run realTrig true exampleLines).1.prims) = 6 ∧
      (6 : ℕ) ≠ 6 + 1 := by
  refine ⟨by decide, by rfl, by rfl, by decide⟩

/-- C2, amended: in a successful run whose well-formed `inicio`/`tamanho`
lines all precede the first `first_step`-clearing line, with k clearing
(motion/no-op) lines, exactly `max k 1` ticks are drawn: no tick for the
first clearing line, one tick at the start of each later non-blank line
(the first of them inverted, the rest normal), and one final inverted tick;
so 1 tick for k = 0 and k ticks for k ≥ 1 (of which 2 are inverted when
k ≥ 2, otherwise 1). -/
theorem claim_C2_amended {α : Type} [Field α] (t : Trig α) (sl : Bool)
    (L : List String) (hok : (run t sl L).2 = none)
    (hafter : (L.dropWhile (fun l => !clearingB l)).all
      (fun l => blankB l || clearingB l) = true) :
    countTicks (run t sl L).1.prims = max (L.filter clearingB).length 1 ∧
      countInvTicks (run t sl L).1.prims =
        min (max (L.filter clearingB).length 1) 2 := by
  rcases hr : runFrom t sl 0 L initState with ⟨s, e⟩
  cases e with
  | some e =>
    exfalso
    have : (run t sl L).2 = some e := by
      simp only [run]
      rw [hr]
    rw [this] at hok
    exact Option.noConfusion hok
  | none =>
    have hrun : run t sl L = (emit s (Primitive.tick s.x s.y s.theta true), none) := by
      simp only [run]
      rw [hr]
    have hcounts := runFrom_tick_count t sl L 0 initState rfl rfl
      (by rw [hr]) hafter
    rw [hr] at hcounts
    dsimp only at hcounts
    have h0 : countTicks (initState (α := α)).prims = 0 := rfl
    have h0i : countInvTicks (initState (α := α)).prims = 0 := rfl
    rw [h0] at hcounts
    rw [h0i] at hcounts
    rw [hrun]
    dsimp only
    have hT : countTicks (s.prims ++ [Primitive.tick s.x s.y s.theta true]) =
        countTicks s.prims + 1 := by
      rw [countTicks_append]
      rfl
    have hTi : countInvTicks (s.prims ++ [Primitive.tick s.x s.y s.theta true]) =
        countInvTicks s.prims + 1 := by
      rw [countInvTicks_append]
      rfl
    rw [show (emit s (Primitive.tick s.x s.y s.theta true)).prims =
      s.prims ++ [Primitive.tick s.x s.y s.theta true] from rfl, hT, hTi,
      hcounts.1, hcounts.2]
    constructor
    · omega
    · by_cases h2 : 2 ≤ (L.filter clearingB).length
      · simp only [if_pos h2]
        omega
      · simp only [if_neg h2]
        omega

/-- C2, witness: the amended count formula evaluated on the eight-line
example over the rational instantiation: k = 6 clearing lines, 6 ticks of
which 2 inverted. -/
theorem claim_C2_amended_witness :
    ((run ratTrig true exampleLines).2 = none ∧
        (exampleLines.dropWhile (fun l => !clearingB l)).all
          (fun l => blankB l || clearingB l) = true) ∧
      countTicks (run ratTrig true exampleLines).1.prims =
        max (exampleLines.filter clearingB).length 1 ∧
      countInvTicks (run ratTrig true exampleLines).1.prims =
        min (max (exampleLines.filter clearingB).length 1) 2 :=
  ⟨⟨by decide, by decide⟩,
    claim_C2_amended ratTrig true exampleLines (by decide) (by decide)⟩

/-- The first token of a list whose `float` conversion fails. -/
def firstFail (toks : List (List Char)) : Option (List Char) :=
  toks.find? (fun tk => (pyFloat? tk).isNone)

/-- The token on which the first dispatch chain raises `ValueError`, if
any: `inicio`/`tamanho` lines convert their arguments left to right. -/
def chain1Fatal (parts : List (List Char)) : Option (List Char) :=
  if lowerTok (parts.getD 0 []) = "inicio".data ∧ parts.length = 4 then
    firstFail [parts.getD 1 [], parts.getD 2 [], parts.getD 3 []]
  else if lowerTok (parts.getD 0 []) = "tamanho".data ∧ parts.length = 3 then
    firstFail [parts.getD 1 [], parts.getD 2 []]
  else none

/-- The token on which the second dispatch chain raises `ValueError`, if
any: `reta` converts its single argument, `arco` converts tokens 2 and 3
(the side token is never converted). -/
def chain2Fatal (parts : List (List Char)) : Option (List Char) :=
  if lowerTok (parts.getD 0 []) = "reta".data ∧ parts.length = 2 then
    firstFail [parts.getD 1 []]
  else if lowerTok (parts.getD 0 []) = "arco".data ∧ parts.length = 4 then
    firstFail [parts.getD 2 [], parts.getD 3 []]
  else none

/-- The token on which processing the given line raises `ValueError`, if
any (the first chain runs before the second). -/
def fatalTok? (l : String) : Option (List Char) :=
  match chain1Fatal (splitWS l.data) with
  | some tk => some tk
  | none => chain2Fatal (splitWS l.data)

/-- The token of the first line of the list that raises `ValueError`. -/
def firstFatal : List String → Option (List Char)
  | [] => none
  | l :: ls =>
    match fatalTok? l with
    | some tk => some tk
    | none => firstFatal ls

/-- The 1-based number of the first line that raises `ValueError`
(bookkeeping the loop itself does not do). -/
def firstFatalIdx : ℕ → List String → Option ℕ
  | _, [] => none
  | i, l :: ls =>
    match fatalTok? l with
    | some _ => some (i + 1)
    | none => firstFatalIdx (i + 1) ls

theorem chain1_snd {α : Type} [Field α] (parts : List (List Char)) (s : TState α) :
    (chain1 parts s).2 = (chain1Fatal parts).map PyValueError.mk := by
  simp only [chain1, chain1Fatal]
  split_ifs
  · cases hp1 : pyFloat? (parts.getD 1 []) with
    | none => simp_all [firstFail]
    | some q1 =>
      cases hp2 : pyFloat? (parts.getD 2 []) with
      | none => simp_all [firstFail]
      | some q2 =>
        cases hp3 : pyFloat? (parts.getD 3 []) with
        | none => simp_all [firstFail]
        | some q3 => simp_all [firstFail]
  · cases hp1 : pyFloat? (parts.getD 1 []) with
    | none => simp_all [firstFail]
    | some q1 =>
      cases hp2 : pyFloat? (parts.getD 2 []) with
      | none => simp_all [firstFail]
      | some q2 => simp_all [firstFail]
  · rfl

theorem chain2_snd {α : Type} [Field α] (t : Trig α) (sl : Bool) (idx : ℕ)
    (parts : List (List Char)) (s : TState α) :
    (chain2 t sl idx parts s).2 = (chain2Fatal parts).map PyValueError.mk := by
  by_cases hreta : lowerTok (parts.getD 0 []) = "reta".data ∧ parts.length = 2
  · simp only [chain2, chain2Fatal]
    rw [if_pos hreta, if_pos hreta]
    cases hp1 : pyFloat? (parts.getD 1 []) with
    | none => simp_all [firstFail]
    | some q1 =>
      cases sl <;> simp_all [firstFail]
  · by_cases harco : lowerTok (parts.getD 0 []) = "arco".data ∧ parts.length = 4
    · simp only [chain2, chain2Fatal]
      rw [if_neg hreta, if_pos harco, if_neg hreta, if_pos harco]
      cases hp2 : pyFloat? (parts.getD 2 []) with
      | none => simp_all [firstFail]
      | some q2 =>
        cases hp3 : pyFloat? (parts.getD 3 []) with
        | none => simp_all [firstFail]
        | some q3 => cases sl <;> simp_all [firstFail]
    · rw [chain2_else t sl idx parts s hreta harco]
      simp only [chain2Fatal]
      rw [if_neg hreta, if_neg harco]
      rfl

theorem processLine_snd {α : Type} [Field α] (t : Trig α) (sl : Bool) (i : ℕ)
    (l : String) (s : TState α) :
    (processLine t sl i l s).2 = (fatalTok? l).map PyValueError.mk := by
  by_cases hb : splitWS l.data = []
  · rw [processLine_blank t sl i l s hb]
    simp [fatalTok?, chain1Fatal, chain2Fatal, hb]
  · simp only [processLine]
    rw [if_neg hb]
    rcases h1 : chain1 (splitWS l.data) (tickPhase s) with ⟨s2, e2⟩
    have h1snd := chain1_snd (splitWS l.data) (tickPhase s)
    rw [h1] at h1snd
    dsimp only at h1snd
    cases e2 with
    | some e =>
      dsimp only
      rcases Option.map_eq_some'.mp h1snd.symm with ⟨tk, htk, hmk⟩
      simp [fatalTok?, htk, hmk]
    | none =>
      dsimp only
      have hc1 : chain1Fatal (splitWS l.data) = none := by
        cases hcc : chain1Fatal (splitWS l.data) with
        | none => rfl
        | some tk => rw [hcc] at h1snd; simp at h1snd
      rw [chain2_snd t sl i (splitWS l.data) s2]
      simp [fatalTok?, hc1]

theorem runFrom_snd {α : Type} [Field α] (t : Trig α) (sl : Bool) :
    ∀ (L : List String) (i : ℕ) (s : TState α),
      (runFrom t sl i L s).2 = (firstFatal L).map PyValueError.mk := by
  intro L
  induction L with
  | nil => intro i s; rfl
  | cons l ls ih =>
    intro i s
    cases hf : fatalTok? l with
    | some tk =>
      have hstep : (processLine t sl i l s).2 = some (PyValueError.mk tk) := by
        rw [processLine_snd, hf]
        rfl
      rw [runFrom_cons_of_err t sl i l ls s (PyValueError.mk tk) hstep]
      simp [firstFatal, hf]
    | none =>
      have hstep : (processLine t sl i l s).2 = none := by
        rw [processLine_snd, hf]
        rfl
      rw [runFrom_cons_of_ok t sl i l ls s hstep]
      rw [ih (i + 1) (processLine t sl i l s).1]
      simp [firstFatal, hf]

/-- C3, amended: a run fails exactly when some line with a recognized,
correctly-sized command has an argument token on which `float` raises
`ValueError`; the abort happens at the first such line and the error value
is that `ValueError`, carrying the offending token and its conversion
message only — the dialog text is the fixed sentence plus the conversion
message, and no line number is part of the error. -/
theorem claim_C3_amended {α : Type} [Field α] (t : Trig α) (sl : Bool)
    (L : List String) :
    (run t sl L).2 = (firstFatal L).map PyValueError.mk ∧
      ∀ e : PyValueError,
        dialogText e =
          "Comando inválido ou erro de sintaxe.\n" ++
            ("could not convert string to float: '" ++ String.mk e.token ++ "'") := by
  constructor
  · rcases hr : runFrom t sl 0 L initState with ⟨s, e⟩
    have h := runFrom_snd t sl L 0 initState
    rw [hr] at h
    dsimp only at h
    cases e with
    | none =>
      have : run t sl L = (emit s (Primitive.tick s.x s.y s.theta true), none) := by
        simp only [run]
        rw [hr]
      rw [this]
      exact h
    | some e =>
      have : run t sl L = (s, some e) := by
        simp only [run]
        rw [hr]
      rw [this]
      exact h
  · intro e
    rfl

/-- C3, counterexample: the runs of `["reta abc"]` and
`["reta 1", "reta abc"]` fail on line 1 and on line 2 respectively, yet
produce the very same error value and the very same dialog text — the
error does not carry the offending line's number. -/
theorem claim_C3_cex :
    (run realTrig true ["reta abc"]).2 = some ⟨"abc".data⟩ ∧
      (run realTrig true ["reta 1", "reta abc"]).2 = some ⟨"abc".data⟩ ∧
      firstFatalIdx 0 ["reta abc"] = some 1 ∧
      firstFatalIdx 0 ["reta 1", "reta abc"] = some 2 ∧
      (run realTrig true ["reta abc"]).2 = (run realTrig true ["reta 1", "reta abc"]).2 ∧
      (1 : ℕ) ≠ 2 := by
  exact ⟨rfl, rfl, by decide, by decide, rfl, by decide⟩

/-- C4, amended: a failed run is not all-or-nothing: the scene is exactly
what had been drawn up to and including the failing line's partial effects
(its start-of-line tick included), the remaining lines are not processed,
and no final tick is drawn — everything already emitted stays in the
scene. -/
theorem claim_C4_amended {α : Type} [Field α] (t : Trig α) (sl : Bool)
    (pre : List String) (line : String) (rest : List String)
    (h1 : (runFrom t sl 0 pre initState).2 = none)
    (h2 : (processLine t sl pre.length line
      (runFrom t sl 0 pre initState).1).2.isSome = true) :
    run t sl (pre ++ line :: rest) =
      processLine t sl pre.length line (runFrom t sl 0 pre initState).1 := by
  rcases Option.isSome_iff_exists.mp h2 with ⟨e, he⟩
  simp only [run]
  rw [runFrom_append_of_ok t sl pre (line :: rest) 0 initState h1]
  simp only [Nat.zero_add]
  rw [runFrom_cons_of_err t sl pre.length line rest
    (runFrom t sl 0 pre initState).1 e he]
  dsimp only
  exact Prod.ext rfl he.symm

/-- C4, witness: the amended statement evaluated at a concrete failing run
over the rational instantiation. -/
theorem claim_C4_amended_witness :
    ((runFrom ratTrig true 0 ["reta 100"] initState).2 = none ∧
        (processLine ratTrig true (["reta 100"] : List String).length "reta abc"
          (runFrom ratTrig true 0 ["reta 100"] initState).1).2.isSome = true) ∧
      run ratTrig true (["reta 100"] ++ "reta abc" :: ["reta 7"]) =
        processLine ratTrig true (["reta 100"] : List String).length "reta abc"
          (runFrom ratTrig true 0 ["reta 100"] initState).1 :=
  ⟨⟨by decide, by decide⟩,
    claim_C4_amended ratTrig true ["reta 100"] "reta abc" ["reta 7"]
      (by decide) (by decide)⟩

/-- C4, counterexample: the run of `["reta 100", "reta abc"]` fails with
the `ValueError` on `abc`, yet its scene holds 3 drawing calls (the first
segment, its label, and the inverted start tick drawn at the top of the
failing line) — not zero primitives. -/
theorem claim_C4_cex :
    (run realTrig true ["reta 100", "reta abc"]).2 = some ⟨"abc".data⟩ ∧
      (run realTrig true ["reta 100", "reta abc"]).1.prims.length = 3 ∧
      (3 : ℕ) ≠ 0 := by
  exact ⟨rfl, rfl, by decide⟩

/-- C8, amended: a `tamanho` line with two convertible arguments `w`, `h`
emits `Rect{w, h}` and leaves `first_step` untouched, but the scene rect of
`{w + 2*30, h + 2*30}` set by the loop body is immediately overwritten by
`adjust_view_to_rect`, so after the line the recorded scene rect is
`{w, h}` (the margin-padded value survives only as the first of the two
`setSceneRect` calls). -/
theorem claim_C8_amended {α : Type} [Field α] (t : Trig α) (sl : Bool) (i : ℕ)
    (s : TState α) (l : String) (t0 t1v t2v : List Char) (qw qh : ℚ)
    (hsp : splitWS l.data = [t0, t1v, t2v])
    (hcmd : lowerTok t0 = "tamanho".data)
    (hw : pyFloat? t1v = some qw) (hh : pyFloat? t2v = some qh)
    (hfs : s.first_step = true) :
    processLine t sl i l s =
      ({ s with
          sceneRect := some ((qw : α), (qh : α)),
          rectHist := s.rectHist ++
            [((qw : α) + 2 * RECT_MARGIN, (qh : α) + 2 * RECT_MARGIN),
              ((qw : α), (qh : α))],
          prims := s.prims ++ [Primitive.rect (qw : α) (qh : α)] }, none) := by
  simp only [processLine]
  rw [hsp, if_neg (by simp), tickPhase_of_first_step s hfs]
  have hni : ¬(lowerTok (([t0, t1v, t2v] : List (List Char)).getD 0 []) =
      "inicio".data ∧ ([t0, t1v, t2v] : List (List Char)).length = 4) := by
    simp
  have ht : lowerTok (([t0, t1v, t2v] : List (List Char)).getD 0 []) =
      "tamanho".data ∧ ([t0, t1v, t2v] : List (List Char)).length = 3 :=
    ⟨hcmd, rfl⟩
  have hc1 : chain1 [t0, t1v, t2v] s =
      (emit (adjust_view_to_rect
          (setSceneRect s ((qw : α) + 2 * RECT_MARGIN) ((qh : α) + 2 * RECT_MARGIN))
          (qw : α) (qh : α))
        (Primitive.rect (qw : α) (qh : α)), none) := by
    simp only [chain1]
    rw [if_neg hni, if_pos ht]
    simp only [List.getD_cons_zero, List.getD_cons_succ]
    rw [hw, hh]
  rw [hc1]
  dsimp only
  rw [chain2_else t sl i [t0, t1v, t2v] _ (by simp) (by simp)]
  simp [setSceneRect, adjust_view_to_rect, emit, List.append_assoc]

/-- C8, witness: `tamanho 600 400` from the initial state over the rational
instantiation. -/
theorem claim_C8_amended_witness :
    (splitWS ("tamanho 600 400" : String).data =
        ["tamanho".data, "600".data, "400".data] ∧
      lowerTok "tamanho".data = "tamanho".data ∧
      pyFloat? "600".data = some 600 ∧ pyFloat? "400".data = some 400 ∧
      (initState (α := ℚ)).first_step = true) ∧
    processLine ratTrig true 0 "tamanho 600 400" (initState (α := ℚ)) =
      ({ initState (α := ℚ) with
          sceneRect := some ((600 : ℚ), (400 : ℚ)),
          rectHist := (initState (α := ℚ)).rectHist ++
            [((600 : ℚ) + 2 * RECT_MARGIN, (400 : ℚ) + 2 * RECT_MARGIN),
              ((600 : ℚ), (400 : ℚ))],
          prims := (initState (α := ℚ)).prims ++
            [Primitive.rect (600 : ℚ) (400 : ℚ)] }, none) := by
  refine ⟨⟨by decide, by decide, by decide, by decide, rfl⟩, ?_⟩
  have h := claim_C8_amended ratTrig true 0 (initState (α := ℚ))
    "tamanho 600 400" "tamanho".data "600".data "400".data 600 400
    (by decide) (by decide) (by decide) (by decide) rfl
  rw [h]
  norm_num

/-- C8, counterexample: after running just `tamanho 600 400`, the recorded
scene rect is `{600, 400}` — not the claimed viewport hint `{660, 460}`,
which was set transiently and then overwritten. -/
theorem claim_C8_cex :
    (run realTrig true ["tamanho 600 400"]).1.sceneRect =
        some ((600 : ℝ), (400 : ℝ)) ∧
      (run realTrig true ["tamanho 600 400"]).1.rectHist =
        [((660 : ℝ), (460 : ℝ)), ((600 : ℝ), (400 : ℝ))] ∧
      some ((600 : ℝ), (400 : ℝ)) ≠ some ((660 : ℝ), (460 : ℝ)) := by
  refine ⟨?_, ?_, by norm_num⟩
  · have h1 : (run realTrig true ["tamanho 600 400"]).1.sceneRect =
        some ((((600 : ℚ) : ℝ)), (((400 : ℚ) : ℝ))) := rfl
    rw [h1]
    norm_num
  · have h2 : (run realTrig true ["tamanho 600 400"]).1.rectHist =
        [((((600 : ℚ) : ℝ)) + 2 * RECT_MARGIN, (((400 : ℚ) : ℝ)) + 2 * RECT_MARGIN),
          ((((600 : ℚ) : ℝ)), (((400 : ℚ) : ℝ)))] := rfl
    rw [h2]
    norm_num [RECT_MARGIN]

/-- The signed sweep a line contributes to the heading: the parsed sweep of
a well-formed `arco` line, negated for any side token other than `l` (the
sign convention of `draw_arc`); every other line contributes 0. -/
def lineSweepQ (l : String) : ℚ :=
  if lowerTok ((splitWS l.data).getD 0 []) = "arco".data ∧
      (splitWS l.data).length = 4 then
    match pyFloat? ((splitWS l.data).getD 3 []) with
    | some qa => if (splitWS l.data).getD 1 [] ≠ "l".data then -qa else qa
    | none => 0
  else 0

theorem tickPhase_pose {α : Type} (s : TState α) :
    (tickPhase s).x = s.x ∧ (tickPhase s).y = s.y ∧ (tickPhase s).theta = s.theta := by
  simp only [tickPhase]
  split_ifs <;> exact ⟨rfl, rfl, rfl⟩

theorem chain2_arco_theta {α : Type} [Field α] (t : Trig α) (sl : Bool) (idx : ℕ)
    (parts : List (List Char)) (s : TState α) (qr qa : ℚ)
    (harco : lowerTok (parts.getD 0 []) = "arco".data ∧ parts.length = 4)
    (hr : pyFloat? (parts.getD 2 []) = some qr)
    (ha : pyFloat? (parts.getD 3 []) = some qa) :
    (chain2 t sl idx parts s).1.theta =
      s.theta + (if parts.getD 1 [] ≠ "l".data then -(qa : α) else (qa : α)) := by
  have hreta : ¬(lowerTok (parts.getD 0 []) = "reta".data ∧ parts.length = 2) := by
    rintro ⟨_, hl⟩
    rw [harco.2] at hl
    exact absurd hl (by decide)
  simp only [chain2]
  rw [if_neg hreta, if_pos harco, hr, ha]
  simp [draw_arc]

theorem processLine_theta {α : Type} [Field α] (t : Trig α) (sl : Bool) (i : ℕ)
    (l : String) (s : TState α) (hni : inicioLineB l = false)
    (hok : (processLine t sl i l s).2 = none) :
    (processLine t sl i l s).1.theta = s.theta + ((lineSweepQ l : ℚ) : α) := by
  by_cases hb : splitWS l.data = []
  · rw [processLine_blank t sl i l s hb]
    have hz : lineSweepQ l = 0 := by
      simp [lineSweepQ, hb]
    rw [hz]
    simp
  · have hnish : ¬(lowerTok ((splitWS l.data).getD 0 []) = "inicio".data ∧
        (splitWS l.data).length = 4) := by
      simpa [inicioLineB] using hni
    simp only [processLine] at hok ⊢
    rw [if_neg hb] at hok ⊢
    rcases h1 : chain1 (splitWS l.data) (tickPhase s) with ⟨s2, e2⟩
    cases e2 with
    | some e =>
      rw [h1] at hok
      simp at hok
    | none =>
      rw [h1] at hok
      dsimp only at hok
      have hs2 : s2.theta = s.theta := by
        have hpose := chain1_pose (splitWS l.data) (tickPhase s) hnish
        have hfst : (chain1 (splitWS l.data) (tickPhase s)).1 = s2 := by rw [h1]
        rw [hfst] at hpose
        rw [hpose.2.2, (tickPhase_pose s).2.2]
      by_cases harco : lowerTok ((splitWS l.data).getD 0 []) = "arco".data ∧
        (splitWS l.data).length = 4
      · have hc2 := chain2_snd t sl i (splitWS l.data) s2
        rw [hok] at hc2
        have hfatal : chain2Fatal (splitWS l.data) = none := by
          cases hcc : chain2Fatal (splitWS l.data) with
          | none => rfl
          | some tk => rw [hcc] at hc2; simp at hc2
        have hreta : ¬(lowerTok ((splitWS l.data).getD 0 []) = "reta".data ∧
            (splitWS l.data).length = 2) := by
          rintro ⟨_, hl⟩
          rw [harco.2] at hl
          exact absurd hl (by decide)
        have hfind : firstFail [(splitWS l.data).getD 2 [], (splitWS l.data).getD 3 []] =
            none := by
          simp only [chain2Fatal] at hfatal
          rw [if_neg hreta, if_pos harco] at hfatal
          exact hfatal
        rcases hp2 : pyFloat? ((splitWS l.data).getD 2 []) with _ | q2
        · exfalso
          have hp2n := hp2
          simp only [List.getD_eq_getElem?_getD] at hp2n
          simp [firstFail, hp2, hp2n] at hfind
        · rcases hp3 : pyFloat? ((splitWS l.data).getD 3 []) with _ | q3
          · exfalso
            have hp2n := hp2
            have hp3n := hp3
            simp only [List.getD_eq_getElem?_getD] at hp2n hp3n
            simp [firstFail, hp2, hp3, hp2n, hp3n] at hfind
          · rw [chain2_arco_theta t sl i (splitWS l.data) s2 q2 q3 harco hp2 hp3, hs2]
            have hsw : lineSweepQ l =
                if (splitWS l.data).getD 1 [] ≠ "l".data then -q3 else q3 := by
              simp only [lineSweepQ]
              rw [if_pos harco, hp3]
            rw [hsw]
            split_ifs <;> push_cast <;> ring
      · rw [chain2_theta_of_not_arco t sl i (splitWS l.data) s2 harco, hs2]
        have hz : lineSweepQ l = 0 := by
          simp only [lineSweepQ]
          rw [if_neg harco]
        rw [hz]
        simp

/-- C7: in any segment of a run containing no well-formed `inicio` line and
processed without error, the final heading is exactly the starting heading
plus the sum of the signed sweeps of the `arco` lines (positive for side
`l`, negative otherwise); it is never reduced modulo 360, and lines other
than `arco` (in particular `reta` and `tamanho`) contribute nothing to it. -/
theorem claim_C7 {α : Type} [Field α] [CharZero α] (t : Trig α) (sl : Bool) :
    ∀ (L : List String) (i : ℕ) (s : TState α),
      (∀ l ∈ L, inicioLineB l = false) →
      (runFrom t sl i L s).2 = none →
      (runFrom t sl i L s).1.theta = s.theta + ((L.map lineSweepQ).sum : α) := by
  intro L
  induction L with
  | nil => intro i s _ _; simp [runFrom]
  | cons l ls ih =>
    intro i s hni hok
    have hok1 : (processLine t sl i l s).2 = none := runFrom_ok_head t sl i l ls s hok
    rw [runFrom_cons_of_ok t sl i l ls s hok1] at hok ⊢
    rw [ih (i + 1) (processLine t sl i l s).1 (fun x hx => hni x (by simp [hx])) hok,
      processLine_theta t sl i l s (hni l (by simp)) hok1]
    simp only [List.map_cons, List.sum_cons]
    rw [Rat.cast_add]
    ring

/-- C7, witness: two left arcs of 270 degrees from the initial state over
the rational instantiation: the final heading is 540, beyond 360 and not
wrapped. -/
theorem claim_C7_witness :
    ((∀ l ∈ (["arco l 100 270", "arco l 100 270"] : List String),
          inicioLineB l = false) ∧
        (runFrom ratTrig true 0 ["arco l 100 270", "arco l 100 270"]
          initState).2 = none) ∧
      (runFrom ratTrig true 0 ["arco l 100 270", "arco l 100 270"]
          initState).1.theta =
        (initState (α := ℚ)).theta +
          (((["arco l 100 270", "arco l 100 270"] : List String).map
            lineSweepQ).sum : ℚ) ∧
      (initState (α := ℚ)).theta +
          (((["arco l 100 270", "arco l 100 270"] : List String).map
            lineSweepQ).sum : ℚ) = 540 :=
  ⟨⟨by decide, by decide⟩,
    claim_C7 ratTrig true ["arco l 100 270", "arco l 100 270"] 0 initState
      (by decide) (by decide),
    by
      have h1 : lineSweepQ "arco l 100 270" = 270 := by decide
      simp [h1, initState]
      norm_num⟩

/-- Deleting the labels from a state's scene. -/
def stripLabels {α : Type} (s : TState α) : TState α :=
  { s with prims := s.prims.filter (fun p => !isLabelB p) }

theorem tickPhase_strip {α : Type} (s : TState α) :
    tickPhase (stripLabels s) = stripLabels (tickPhase s) := by
  simp only [tickPhase, stripLabels, emit]
  split_ifs <;>
    simp_all [List.filter_append, isLabelB]

theorem chain1_strip {α : Type} [Field α] (parts : List (List Char)) (s : TState α) :
    chain1 parts (stripLabels s) =
      (stripLabels (chain1 parts s).1, (chain1 parts s).2) := by
  simp only [chain1]
  split_ifs
  · cases pyFloat? (parts.getD 1 []) with
    | none => rfl
    | some qx =>
      cases pyFloat? (parts.getD 2 []) with
      | none => rfl
      | some qy =>
        cases pyFloat? (parts.getD 3 []) with
        | none => rfl
        | some qt => simp [stripLabels]
  · cases pyFloat? (parts.getD 1 []) with
    | none => rfl
    | some qw =>
      cases pyFloat? (parts.getD 2 []) with
      | none => rfl
      | some qh =>
        simp [stripLabels, setSceneRect, adjust_view_to_rect, emit,
          List.filter_append, isLabelB]
  · simp [stripLabels]

theorem chain2_strip {α : Type} [Field α] (t : Trig α) (idx : ℕ)
    (parts : List (List Char)) (s : TState α) :
    chain2 t false idx parts (stripLabels s) =
      (stripLabels (chain2 t true idx parts s).1, (chain2 t true idx parts s).2) := by
  by_cases hreta : lowerTok (parts.getD 0 []) = "reta".data ∧ parts.length = 2
  · simp only [chain2]
    rw [if_pos hreta, if_pos hreta]
    cases pyFloat? (parts.getD 1 []) with
    | none => rfl
    | some qd =>
      simp [stripLabels, emit, List.filter_append, isLabelB, draw_line]
  · by_cases harco : lowerTok (parts.getD 0 []) = "arco".data ∧ parts.length = 4
    · simp only [chain2]
      rw [if_neg hreta, if_pos harco, if_neg hreta, if_pos harco]
      cases pyFloat? (parts.getD 2 []) with
      | none => rfl
      | some qr =>
        cases pyFloat? (parts.getD 3 []) with
        | none => rfl
        | some qa =>
          simp [stripLabels, emit, List.filter_append, isLabelB, draw_arc]
    · rw [chain2_else t false idx parts (stripLabels s) hreta harco,
        chain2_else t true idx parts s hreta harco]

theorem processLine_strip {α : Type} [Field α] (t : Trig α) (i : ℕ) (l : String)
    (s : TState α) :
    processLine t false i l (stripLabels s) =
      (stripLabels (processLine t true i l s).1, (processLine t true i l s).2) := by
  by_cases hb : splitWS l.data = []
  · rw [processLine_blank t false i l (stripLabels s) hb,
      processLine_blank t true i l s hb]
  · simp only [processLine]
    rw [if_neg hb, if_neg hb, tickPhase_strip, chain1_strip]
    rcases h1 : chain1 (splitWS l.data) (tickPhase s) with ⟨s2, e2⟩
    cases e2 with
    | some e => rfl
    | none =>
      dsimp only
      rw [chain2_strip]

theorem runFrom_strip {α : Type} [Field α] (t : Trig α) :
    ∀ (L : List String) (i : ℕ) (s : TState α),
      runFrom t false i L (stripLabels s) =
        (stripLabels (runFrom t true i L s).1, (runFrom t true i L s).2) := by
  intro L
  induction L with
  | nil => intro i s; rfl
  | cons l ls ih =>
    intro i s
    rcases hp : processLine t true i l s with ⟨s1, e1⟩
    have hstep := processLine_strip t i l s
    rw [hp] at hstep
    cases e1 with
    | some e =>
      rw [runFrom_cons_of_err t true i l ls s e (by rw [hp]),
        runFrom_cons_of_err t false i l ls (stripLabels s) e (by rw [hstep])]
      rw [hstep]
      dsimp only
      rw [show (processLine t true i l s).1 = s1 from by rw [hp]]
    | none =>
      rw [runFrom_cons_of_ok t true i l ls s (by rw [hp]),
        runFrom_cons_of_ok t false i l ls (stripLabels s) (by rw [hstep])]
      rw [hstep]
      dsimp only
      rw [show (processLine t true i l s).1 = s1 from by rw [hp]]
      exact ih (i + 1) s1

/-- C9: disabling the labels toggle removes exactly the `Label` drawing
calls: the run without labels produces the label-filtered primitive list of
the run with labels, contains no label at all, and fails or succeeds
identically. -/
theorem claim_C9 {α : Type} [Field α] (t : Trig α) (L : List String) :
    (run t false L).1.prims =
        ((run t true L).1.prims).filter (fun p => !isLabelB p) ∧
      (∀ p ∈ (run t false L).1.prims, isLabelB p = false) ∧
      (run t false L).2 = (run t true L).2 := by
  have hinit : stripLabels (initState (α := α)) = initState := rfl
  have hrf := runFrom_strip t L 0 (initState (α := α))
  rw [hinit] at hrf
  have hmain : (run t false L).1.prims =
      ((run t true L).1.prims).filter (fun p => !isLabelB p) ∧
      (run t false L).2 = (run t true L).2 := by
    rcases hr : runFrom t true 0 L initState with ⟨S, E⟩
    rw [hr] at hrf
    dsimp only at hrf
    cases E with
    | some e =>
      have h1 : run t true L = (S, some e) := by
        simp only [run]
        rw [hr]
      have h2 : run t false L = (stripLabels S, some e) := by
        simp only [run]
        rw [hrf]
      rw [h1, h2]
      exact ⟨rfl, rfl⟩
    | none =>
      have h1 : run t true L = (emit S (Primitive.tick S.x S.y S.theta true), none) := by
        simp only [run]
        rw [hr]
      have h2 : run t false L =
          (emit (stripLabels S)
            (Primitive.tick (stripLabels S).x (stripLabels S).y
              (stripLabels S).theta true), none) := by
        simp only [run]
        rw [hrf]
      rw [h1, h2]
      refine ⟨?_, rfl⟩
      simp [stripLabels, emit, List.filter_append, isLabelB]
  refine ⟨hmain.1, ?_, hmain.2⟩
  intro p hp
  rw [hmain.1] at hp
  have := List.mem_filter.mp hp
  simpa using this.2

theorem tickPhase_prims_extend {α : Type} (s : TState α) :
    ∃ ps, (tickPhase s).prims = s.prims ++ ps := by
  cases hfs : s.first_step with
  | true =>
    rw [tickPhase_of_first_step s hfs]
    exact ⟨[], by simp⟩
  | false =>
    rw [tickPhase_of_not_first_step s hfs]
    exact ⟨[Primitive.tick s.x s.y s.theta s.first_mark], rfl⟩

theorem processLine_prims_extend {α : Type} [Field α] (t : Trig α) (sl : Bool)
    (i : ℕ) (l : String) (s : TState α) :
    ∃ ps, (processLine t sl i l s).1.prims = s.prims ++ ps := by
  by_cases hb : splitWS l.data = []
  · rw [processLine_blank t sl i l s hb]
    exact ⟨[], by simp⟩
  · simp only [processLine]
    rw [if_neg hb]
    obtain ⟨ps0, hps0⟩ := tickPhase_prims_extend s
    obtain ⟨ps1, hps1, _⟩ := chain1_prims (splitWS l.data) (tickPhase s)
    rcases h1 : chain1 (splitWS l.data) (tickPhase s) with ⟨s2, e2⟩
    rw [h1] at hps1
    dsimp only at hps1
    cases e2 with
    | some e => exact ⟨ps0 ++ ps1, prims_ext_trans hps0 hps1⟩
    | none =>
      dsimp only
      obtain ⟨ps2, hps2, _⟩ := chain2_prims t sl i (splitWS l.data) s2
      exact ⟨(ps0 ++ ps1) ++ ps2,
        prims_ext_trans (prims_ext_trans hps0 hps1) hps2⟩

theorem runFrom_prims_extend {α : Type} [Field α] (t : Trig α) (sl : Bool) :
    ∀ (L : List String) (i : ℕ) (s : TState α),
      ∃ ps, (runFrom t sl i L s).1.prims = s.prims ++ ps := by
  intro L
  induction L with
  | nil => intro i s; exact ⟨[], by simp [runFrom]⟩
  | cons l ls ih =>
    intro i s
    obtain ⟨ps1, hps1⟩ := processLine_prims_extend t sl i l s
    rcases hp : (processLine t sl i l s).2 with _ | e
    · obtain ⟨ps2, hps2⟩ := ih (i + 1) (processLine t sl i l s).1
      rw [runFrom_cons_of_ok t sl i l ls s hp]
      exact ⟨ps1 ++ ps2, prims_ext_trans hps1 hps2⟩
    · rw [runFrom_cons_of_err t sl i l ls s e hp]
      exact ⟨ps1, hps1⟩

theorem run_prims_extend {α : Type} [Field α] (t : Trig α) (sl : Bool)
    (L : List String) :
    ∃ ps, (run t sl L).1.prims = (runFrom t sl 0 L initState).1.prims ++ ps := by
  rcases hr : runFrom t sl 0 L initState with ⟨S, E⟩
  cases E with
  | none =>
    have h1 : run t sl L = (emit S (Primitive.tick S.x S.y S.theta true), none) := by
      simp only [run]
      rw [hr]
    rw [h1]
    exact ⟨[Primitive.tick S.x S.y S.theta true], rfl⟩
  | some e =>
    have h1 : run t sl L = (S, some e) := by
      simp only [run]
      rw [hr]
    rw [h1]
    exact ⟨[], by simp⟩

theorem runFrom_blanks {α : Type} [Field α] (t : Trig α) (sl : Bool) :
    ∀ (blanks : List String) (i : ℕ) (s : TState α),
      (∀ l ∈ blanks, blankB l = true) →
      runFrom t sl i blanks s = (s, none) := by
  intro blanks
  induction blanks with
  | nil => intro i s _; rfl
  | cons l ls ih =>
    intro i s hall
    have hb : splitWS l.data = [] := by
      have := hall l (by simp)
      simpa [blankB] using this
    have hp : processLine t sl i l s = (s, none) := processLine_blank t sl i l s hb
    rw [runFrom_cons_of_ok t sl i l ls s (by rw [hp]),
      show (processLine t sl i l s).1 = s from by rw [hp]]
    exact ih (i + 1) s (fun x hx => hall x (by simp [hx]))

theorem firstFatal_append :
    ∀ A B : List String, firstFatal (A ++ B) =
      match firstFatal A with
      | some tk => some tk
      | none => firstFatal B := by
  intro A
  induction A with
  | nil => intro B; rfl
  | cons l ls ih =>
    intro B
    simp only [List.cons_append, firstFatal]
    cases fatalTok? l with
    | some tk => rfl
    | none => exact ih B

theorem runFrom_ok_prefix {α : Type} [Field α] (t : Trig α) (sl : Bool)
    (A B : List String) (i : ℕ) (s : TState α)
    (h : (runFrom t sl i (A ++ B) s).2 = none) :
    (runFrom t sl i A s).2 = none := by
  rw [runFrom_snd t sl (A ++ B) i s, firstFatal_append A B] at h
  rw [runFrom_snd t sl A i s]
  cases hf : firstFatal A with
  | none => rfl
  | some tk =>
    rw [hf] at h
    simp at h

theorem motionLineB_shape (l : String) (h : motionLineB l = true) :
    splitWS l.data ≠ [] ∧
      ¬(lowerTok ((splitWS l.data).getD 0 []) = "inicio".data ∧
        (splitWS l.data).length = 4) ∧
      ¬(lowerTok ((splitWS l.data).getD 0 []) = "tamanho".data ∧
        (splitWS l.data).length = 3) := by
  have h' := h
  simp only [motionLineB, decide_eq_true_eq] at h'
  rcases h' with ⟨hc, hl⟩ | ⟨hc, hl⟩
  · refine ⟨?_, ?_, ?_⟩
    · intro he
      rw [he] at hl
      exact absurd hl (by decide)
    · rintro ⟨_, hl4⟩
      rw [hl] at hl4
      exact absurd hl4 (by decide)
    · rintro ⟨_, hl3⟩
      rw [hl] at hl3
      exact absurd hl3 (by decide)
  · refine ⟨?_, ?_, ?_⟩
    · intro he
      rw [he] at hl
      exact absurd hl (by decide)
    · rintro ⟨hc4, _⟩
      rw [hc] at hc4
      exact absurd hc4 (by decide)
    · rintro ⟨_, hl3⟩
      rw [hl] at hl3
      exact absurd hl3 (by decide)

/-- C10: when the first `first_step`-clearing line of a run is a motion
command (preceded only by blank or well-formed setup lines), no tick is
drawn while processing it; the inverted start/finish tick appears in the
output right after the primitives of that prefix — it is drawn at the top
of the next non-blank line, at the pose reached AFTER the motion command
completed (conjunct 1); and if only blank lines follow the motion command,
the run's scene ends with the single final inverted tick at that same pose,
no other tick having been drawn (conjuncts 2 and 3). -/
theorem claim_C10 {α : Type} [Field α] (t : Trig α) (sl : Bool)
    (pre blanks rest : List String) (mline next : String)
    (hpre : ∀ l ∈ pre, blankB l = true ∨ setupB l = true)
    (hm : motionLineB mline = true)
    (h1 : (runFrom t sl 0 (pre ++ [mline]) initState).2 = none)
    (hbl : ∀ l ∈ blanks, blankB l = true)
    (hnb : blankB next = false) :
    ((run t sl ((pre ++ [mline]) ++ (blanks ++ next :: rest))).1.prims)[
        (runFrom t sl 0 (pre ++ [mline]) initState).1.prims.length]? =
      some (Primitive.tick
        (runFrom t sl 0 (pre ++ [mline]) initState).1.x
        (runFrom t sl 0 (pre ++ [mline]) initState).1.y
        (runFrom t sl 0 (pre ++ [mline]) initState).1.theta true) ∧
    run t sl ((pre ++ [mline]) ++ blanks) =
      (emit (runFrom t sl 0 (pre ++ [mline]) initState).1
        (Primitive.tick
          (runFrom t sl 0 (pre ++ [mline]) initState).1.x
          (runFrom t sl 0 (pre ++ [mline]) initState).1.y
          (runFrom t sl 0 (pre ++ [mline]) initState).1.theta true), none) ∧
    countTicks (runFrom t sl 0 (pre ++ [mline]) initState).1.prims = 0 := by
  have h1copy := h1
  set S1 : TState α := (runFrom t sl 0 (pre ++ [mline]) initState).1 with hS1
  have hpreok : (runFrom t sl 0 pre initState).2 = none :=
    runFrom_ok_prefix t sl pre [mline] 0 initState h1
  obtain ⟨hfs0, hfm0, ps0, hps0, ht0⟩ :=
    runFrom_setup_phase t sl pre 0 initState hpre rfl hpreok
  rw [runFrom_append_of_ok t sl pre [mline] 0 initState hpreok] at h1
  have hmok : (processLine t sl (0 + pre.length) mline
      (runFrom t sl 0 pre initState).1).2 = none :=
    runFrom_ok_head t sl (0 + pre.length) mline []
      (runFrom t sl 0 pre initState).1 h1
  have hS1p : S1 = (processLine t sl (0 + pre.length) mline
      (runFrom t sl 0 pre initState).1).1 := by
    rw [hS1, runFrom_append_of_ok t sl pre [mline] 0 initState hpreok,
      runFrom_cons_of_ok t sl (0 + pre.length) mline []
        (runFrom t sl 0 pre initState).1 hmok]
    rfl
  obtain ⟨hbm, hmni, hmnt⟩ := motionLineB_shape mline hm
  obtain ⟨hfs1, hfm1, ps1, hps1, ht1⟩ :=
    processLine_clearing_true t sl (0 + pre.length) mline
      (runFrom t sl 0 pre initState).1 hfs0 hbm hmni hmnt
  rw [← hS1p] at hfs1 hfm1 hps1
  have hfm1t : S1.first_mark = true := by rw [hfm1, hfm0]; rfl
  have hct : countTicks S1.prims = 0 := by
    rw [hps1, countTicks_append, countTicks_eq_zero ps1 ht1, hps0,
      countTicks_append, countTicks_eq_zero ps0 ht0]
    rfl
  have hrfB : runFrom t sl 0 ((pre ++ [mline]) ++ blanks) initState = (S1, none) := by
    rw [runFrom_append_of_ok t sl (pre ++ [mline]) blanks 0 initState h1copy,
      runFrom_blanks t sl blanks (0 + (pre ++ [mline]).length) S1 hbl]
  have hrunB : run t sl ((pre ++ [mline]) ++ blanks) =
      (emit S1 (Primitive.tick S1.x S1.y S1.theta true), none) := by
    simp only [run]
    rw [hrfB]
  refine ⟨?_, hrunB, hct⟩
  have hbnext : ¬splitWS next.data = [] := by
    simpa [blankB] using hnb
  obtain ⟨extra, hprN, htN, _, _⟩ :=
    processLine_cleared t sl (0 + (pre ++ [mline]).length + blanks.length) next S1
      hbnext hfs1
  rw [hfm1t] at hprN
  have hdecomp : ∃ R, (run t sl ((pre ++ [mline]) ++ (blanks ++ next :: rest))).1.prims =
      S1.prims ++ ([Primitive.tick S1.x S1.y S1.theta true] ++ R) := by
    have hrf1 : runFrom t sl 0 ((pre ++ [mline]) ++ (blanks ++ next :: rest)) initState =
        runFrom t sl (0 + (pre ++ [mline]).length) (blanks ++ next :: rest) S1 := by
      rw [runFrom_append_of_ok t sl (pre ++ [mline]) (blanks ++ next :: rest) 0
        initState h1copy]
    have hrf2 : runFrom t sl (0 + (pre ++ [mline]).length) (blanks ++ next :: rest) S1 =
        runFrom t sl (0 + (pre ++ [mline]).length + blanks.length) (next :: rest) S1 := by
      rw [runFrom_append_of_ok t sl blanks (next :: rest)
          (0 + (pre ++ [mline]).length) S1
          (by rw [runFrom_blanks t sl blanks (0 + (pre ++ [mline]).length) S1 hbl]),
        runFrom_blanks t sl blanks (0 + (pre ++ [mline]).length) S1 hbl]
    obtain ⟨qs, hqs⟩ := run_prims_extend t sl ((pre ++ [mline]) ++ (blanks ++ next :: rest))
    rw [hqs, hrf1, hrf2]
    rcases hpn : (processLine t sl (0 + (pre ++ [mline]).length + blanks.length)
        next S1).2 with _ | e
    · obtain ⟨ps2, hps2⟩ := runFrom_prims_extend t sl rest
        (0 + (pre ++ [mline]).length + blanks.length + 1)
        (processLine t sl (0 + (pre ++ [mline]).length + blanks.length) next S1).1
      rw [runFrom_cons_of_ok t sl (0 + (pre ++ [mline]).length + blanks.length)
        next rest S1 hpn, hps2, hprN]
      exact ⟨(extra ++ ps2) ++ qs, by simp [List.append_assoc]⟩
    · rw [runFrom_cons_of_err t sl (0 + (pre ++ [mline]).length + blanks.length)
        next rest S1 e hpn, hprN]
      exact ⟨extra ++ qs, by simp [List.append_assoc]⟩
  obtain ⟨R, hR⟩ := hdecomp
  rw [hR, List.getElem?_append_right (le_refl _)]
  simp

/-- C10, witness: a concrete run over the rational instantiation whose
first clearing line is `reta 100`, with two blank lines before the next
non-blank line. -/
theorem claim_C10_witness :
    ((∀ l ∈ (["inicio 250 100 0", "tamanho 600 400"] : List String),
          blankB l = true ∨ setupB l = true) ∧
        motionLineB "reta 100" = true ∧
        (runFrom ratTrig true 0 (["inicio 250 100 0", "tamanho 600 400"] ++
          ["reta 100"]) initState).2 = none ∧
        (∀ l ∈ (["", "   "] : List String), blankB l = true) ∧
        blankB "arco r 100 180" = false) ∧
      (((run ratTrig true ((["inicio 250 100 0", "tamanho 600 400"] ++
            ["reta 100"]) ++ (["", "   "] ++ "arco r 100 180" :: ["reta 5"]))).1.prims)[
          (runFrom ratTrig true 0 (["inicio 250 100 0", "tamanho 600 400"] ++
            ["reta 100"]) initState).1.prims.length]? =
        some (Primitive.tick
          (runFrom ratTrig true 0 (["inicio 250 100 0", "tamanho 600 400"] ++
            ["reta 100"]) initState).1.x
          (runFrom ratTrig true 0 (["inicio 250 100 0", "tamanho 600 400"] ++
            ["reta 100"]) initState).1.y
          (runFrom ratTrig true 0 (["inicio 250 100 0", "tamanho 600 400"] ++
            ["reta 100"]) initState).1.theta true) ∧
      run ratTrig true ((["inicio 250 100 0", "tamanho 600 400"] ++
          ["reta 100"]) ++ ["", "   "]) =
        (emit (runFrom ratTrig true 0 (["inicio 250 100 0", "tamanho 600 400"] ++
            ["reta 100"]) initState).1
          (Primitive.tick
            (runFrom ratTrig true 0 (["inicio 250 100 0", "tamanho 600 400"] ++
              ["reta 100"]) initState).1.x
            (runFrom ratTrig true 0 (["inicio 250 100 0", "tamanho 600 400"] ++
              ["reta 100"]) initState).1.y
            (runFrom ratTrig true 0 (["inicio 250 100 0", "tamanho 600 400"] ++
              ["reta 100"]) initState).1.theta true), none) ∧
      countTicks (runFrom ratTrig true 0 (["inicio 250 100 0", "tamanho 600 400"] ++
        ["reta 100"]) initState).1.prims = 0) :=
  ⟨⟨by decide, by decide, by decide, by decide, by decide⟩,
    claim_C10 ratTrig true ["inicio 250 100 0", "tamanho 600 400"] ["", "   "]
      ["reta 5"] "reta 100" "arco r 100 180"
      (by decide) (by decide) (by decide) (by decide) (by decide)⟩

/-- The center of an arc drawing call, when the call is an arc. -/
def arcCenter? {α : Type} : Primitive α → Option (α × α)
  | .arcPath cx cy _ _ _ => some (cx, cy)
  | _ => none

/-- C1: `draw_arc` on side `l`, radius 100, sweep 180 from pose
(250, 100, 0) returns the pose (250, -100, 180): the position moves down by
2 * radius and the heading grows by the (positive) signed sweep. -/
theorem claim_C1 :
    (draw_arc realTrig 250 100 0 ("l".data) 100 180).1 = 250 ∧
      (draw_arc realTrig 250 100 0 ("l".data) 100 180).2.1 = -100 ∧
      (draw_arc realTrig 250 100 0 ("l".data) 100 180).2.2.1 = 180 := by
  have hhalf : Real.pi * 90 / 180 = Real.pi / 2 := by ring
  simp only [draw_arc, deg_to_rad, realTrig]
  norm_num [hhalf, Real.cos_pi_div_two, Real.sin_pi_div_two]

/-- C5, counterexample: for a left arc of radius 100 from pose (0, 0, 0)
the code places the center at (0, -100), not at the claimed (100, 0). -/
theorem claim_C5_cex :
    arcCenter? ((draw_arc realTrig 0 0 0 ("l".data) 100 90).2.2.2) =
        some ((0 : ℝ), (-100 : ℝ)) ∧
      some ((0 : ℝ), (-100 : ℝ)) ≠ some ((100 : ℝ), (0 : ℝ)) := by
  have hhalf : Real.pi * 90 / 180 = Real.pi / 2 := by ring
  constructor
  · simp only [draw_arc, deg_to_rad, realTrig, arcCenter?]
    norm_num [hhalf, Real.cos_pi_div_two, Real.sin_pi_div_two]
  · norm_num

/-- C5, amended: for every radius `r` and sweep `a`, the left arc from pose
(0, 0, 0) is drawn around the center (0, -r): the point at distance `r`
from the start, perpendicular to the heading, on the turn side. -/
theorem claim_C5_amended (r a : ℝ) :
    arcCenter? ((draw_arc realTrig 0 0 0 ("l".data) r a).2.2.2) =
      some (0, -r) := by
  have hhalf : Real.pi * 90 / 180 = Real.pi / 2 := by ring
  simp only [draw_arc, deg_to_rad, realTrig, arcCenter?]
  norm_num [hhalf, Real.cos_pi_div_two, Real.sin_pi_div_two]

/-- Geometric start point of a motion drawing call, under the renderer's
arc convention (`arcMoveTo`: the point of the circle at Qt degree angle `a`
is `(cx + r*cos a, cy - r*sin a)`, angles counter-clockwise positive in the
y-down frame). -/
noncomputable def startPt : Primitive ℝ → Option (ℝ × ℝ)
  | .segment x1 y1 _ _ => some (x1, y1)
  | .arcPath cx cy r sa _ =>
    some (cx + r * Real.cos (deg_to_rad realTrig sa),
      cy - r * Real.sin (deg_to_rad realTrig sa))
  | _ => none

/-- Geometric end point of a motion drawing call, under the renderer's arc
convention (`arcTo` ends at the start angle plus the sweep). -/
noncomputable def endPt : Primitive ℝ → Option (ℝ × ℝ)
  | .segment _ _ x2 y2 => some (x2, y2)
  | .arcPath cx cy r sa sw =>
    some (cx + r * Real.cos (deg_to_rad realTrig (sa + sw)),
      cy - r * Real.sin (deg_to_rad realTrig (sa + sw)))
  | _ => none

theorem cos_turn_sum (θ ct : ℝ) (h : ct = 90 ∨ ct = -90) :
    Real.cos (Real.pi * (θ - ct) / 180) + Real.cos (Real.pi * (θ + ct) / 180) = 0 := by
  rcases h with h | h <;> subst h
  · rw [show Real.pi * (θ - 90) / 180 = Real.pi * θ / 180 - Real.pi / 2 by ring,
      show Real.pi * (θ + 90) / 180 = Real.pi * θ / 180 + Real.pi / 2 by ring,
      Real.cos_sub, Real.cos_add, Real.cos_pi_div_two, Real.sin_pi_div_two]
    ring
  · rw [show Real.pi * (θ - -90) / 180 = Real.pi * θ / 180 + Real.pi / 2 by ring,
      show Real.pi * (θ + -90) / 180 = Real.pi * θ / 180 - Real.pi / 2 by ring,
      Real.cos_sub, Real.cos_add, Real.cos_pi_div_two, Real.sin_pi_div_two]
    ring

theorem sin_turn_sum (θ ct : ℝ) (h : ct = 90 ∨ ct = -90) :
    Real.sin (Real.pi * (θ - ct) / 180) + Real.sin (Real.pi * (θ + ct) / 180) = 0 := by
  rcases h with h | h <;> subst h
  · rw [show Real.pi * (θ - 90) / 180 = Real.pi * θ / 180 - Real.pi / 2 by ring,
      show Real.pi * (θ + 90) / 180 = Real.pi * θ / 180 + Real.pi / 2 by ring,
      Real.sin_sub, Real.sin_add, Real.cos_pi_div_two, Real.sin_pi_div_two]
    ring
  · rw [show Real.pi * (θ - -90) / 180 = Real.pi * θ / 180 + Real.pi / 2 by ring,
      show Real.pi * (θ + -90) / 180 = Real.pi * θ / 180 - Real.pi / 2 by ring,
      Real.sin_sub, Real.sin_add, Real.cos_pi_div_two, Real.sin_pi_div_two]
    ring

theorem filter_motion_nil {α : Type} (ps : List (Primitive α))
    (h : ∀ p ∈ ps, isMotionB p = false) : ps.filter isMotionB = [] := by
  induction ps with
  | nil => rfl
  | cons p ps ih =>
    simp only [List.filter_cons]
    rw [h p (by simp)]
    simp only [Bool.false_eq_true, if_false]
    exact ih (fun q hq => h q (by simp [hq]))

theorem tickPhase_motionFilter {α : Type} (s : TState α) :
    (tickPhase s).prims.filter isMotionB = s.prims.filter isMotionB := by
  cases hfs : s.first_step with
  | true => rw [tickPhase_of_first_step s hfs]
  | false =>
    rw [tickPhase_of_not_first_step s hfs]
    show ((emit s (Primitive.tick s.x s.y s.theta s.first_mark)).prims).filter
        isMotionB = s.prims.filter isMotionB
    simp [emit, List.filter_append, isMotionB]

theorem motionLineB_false_shape (l : String) (h : motionLineB l = false) :
    ¬(lowerTok ((splitWS l.data).getD 0 []) = "reta".data ∧
        (splitWS l.data).length = 2) ∧
      ¬(lowerTok ((splitWS l.data).getD 0 []) = "arco".data ∧
        (splitWS l.data).length = 4) := by
  have h' := h
  simp only [motionLineB, decide_eq_false_iff_not, not_or] at h'
  exact h'

theorem inicioLineB_false_shape (l : String) (h : inicioLineB l = false) :
    ¬(lowerTok ((splitWS l.data).getD 0 []) = "inicio".data ∧
      (splitWS l.data).length = 4) := by
  have h' := h
  simp only [inicioLineB, decide_eq_false_iff_not] at h'
  exact h'

theorem processLine_preserve {α : Type} [Field α] (t : Trig α) (sl : Bool) (i : ℕ)
    (l : String) (s : TState α)
    (hnm : motionLineB l = false) (hnini : inicioLineB l = false)
    (hok : (processLine t sl i l s).2 = none) :
    (processLine t sl i l s).1.x = s.x ∧ (processLine t sl i l s).1.y = s.y ∧
      (processLine t sl i l s).1.prims.filter isMotionB =
        s.prims.filter isMotionB := by
  obtain ⟨hnr, hna⟩ := motionLineB_false_shape l hnm
  have hnish := inicioLineB_false_shape l hnini
  by_cases hb : splitWS l.data = []
  · rw [processLine_blank t sl i l s hb]
    exact ⟨rfl, rfl, rfl⟩
  · simp only [processLine] at hok ⊢
    rw [if_neg hb] at hok ⊢
    rcases h1 : chain1 (splitWS l.data) (tickPhase s) with ⟨s2, e2⟩
    cases e2 with
    | some e => simp [h1] at hok
    | none =>
      dsimp only at hok ⊢
      rw [chain2_else t sl i (splitWS l.data) s2 hnr hna]
      have hfst : (chain1 (splitWS l.data) (tickPhase s)).1 = s2 := by rw [h1]
      have hpose := chain1_pose (splitWS l.data) (tickPhase s) hnish
      rw [hfst] at hpose
      obtain ⟨ps1, hps1, ht1⟩ := chain1_prims (splitWS l.data) (tickPhase s)
      rw [hfst] at hps1
      refine ⟨?_, ?_, ?_⟩
      · rw [hpose.1, (tickPhase_pose s).1]
      · rw [hpose.2.1, (tickPhase_pose s).2.1]
      · rw [hps1, List.filter_append, filter_motion_nil ps1
          (fun p hp => (ht1 p hp).2.1), tickPhase_motionFilter]
        simp

theorem runFrom_preserve {α : Type} [Field α] (t : Trig α) (sl : Bool) :
    ∀ (L : List String) (i : ℕ) (s : TState α),
      (∀ l ∈ L, motionLineB l = false ∧ inicioLineB l = false) →
      (runFrom t sl i L s).2 = none →
      (runFrom t sl i L s).1.x = s.x ∧ (runFrom t sl i L s).1.y = s.y ∧
        (runFrom t sl i L s).1.prims.filter isMotionB =
          s.prims.filter isMotionB := by
  intro L
  induction L with
  | nil => intro i s _ _; exact ⟨rfl, rfl, rfl⟩
  | cons l ls ih =>
    intro i s hall hok
    have hok1 : (processLine t sl i l s).2 = none := runFrom_ok_head t sl i l ls s hok
    rw [runFrom_cons_of_ok t sl i l ls s hok1] at hok ⊢
    obtain ⟨hx, hy, hf⟩ := processLine_preserve t sl i l s (hall l (by simp)).1
      (hall l (by simp)).2 hok1
    obtain ⟨hx2, hy2, hf2⟩ := ih (i + 1) (processLine t sl i l s).1
      (fun x hx => hall x (by simp [hx])) hok
    exact ⟨by rw [hx2, hx], by rw [hy2, hy], by rw [hf2, hf]⟩

theorem chain2_motion (sl : Bool) (idx : ℕ) (parts : List (List Char))
    (s : TState ℝ)
    (h : (lowerTok (parts.getD 0 []) = "reta".data ∧ parts.length = 2) ∨
      (lowerTok (parts.getD 0 []) = "arco".data ∧ parts.length = 4)) :
    (chain2 realTrig sl idx parts s).2 ≠ none ∨
    ∃ p, (chain2 realTrig sl idx parts s).1.prims.filter isMotionB =
        s.prims.filter isMotionB ++ [p] ∧
      startPt p = some (s.x, s.y) ∧
      endPt p = some ((chain2 realTrig sl idx parts s).1.x,
        (chain2 realTrig sl idx parts s).1.y) := by
  rcases h with hreta | harco
  · simp only [chain2]
    rw [if_pos hreta]
    cases pyFloat? (parts.getD 1 []) with
    | none => exact Or.inl (by simp)
    | some qd =>
      refine Or.inr ⟨(draw_line realTrig s.x s.y s.theta ((qd : ℝ))).2.2, ?_, ?_, ?_⟩
      · cases sl <;>
          simp [emit, draw_line, List.filter_append, isMotionB, isLabelB]
      · simp [draw_line, startPt]
      · simp [draw_line, endPt]
  · have hnr : ¬(lowerTok (parts.getD 0 []) = "reta".data ∧ parts.length = 2) := by
      rintro ⟨_, hl⟩
      rw [harco.2] at hl
      exact absurd hl (by decide)
    simp only [chain2]
    rw [if_neg hnr, if_pos harco]
    cases pyFloat? (parts.getD 2 []) with
    | none => exact Or.inl (by simp)
    | some qr =>
      cases pyFloat? (parts.getD 3 []) with
      | none => exact Or.inl (by simp)
      | some qa =>
        refine Or.inr ⟨(draw_arc realTrig s.x s.y s.theta (parts.getD 1 [])
          ((qr : ℝ)) ((qa : ℝ))).2.2.2, ?_, ?_, ?_⟩
        · cases sl <;>
            simp [emit, draw_arc, List.filter_append, isMotionB, isLabelB]
        · simp only [draw_arc, startPt, deg_to_rad, realTrig]
          by_cases hside : parts.getD 1 [] = "l".data
          · rw [if_pos hside]
            simp only [Option.some.injEq, Prod.mk.injEq]
            constructor
            · linear_combination (qr : ℝ) * cos_turn_sum s.theta (-90) (Or.inr rfl)
            · linear_combination (-(qr : ℝ)) * sin_turn_sum s.theta (-90) (Or.inr rfl)
          · rw [if_neg hside]
            simp only [Option.some.injEq, Prod.mk.injEq]
            constructor
            · linear_combination (qr : ℝ) * cos_turn_sum s.theta 90 (Or.inl rfl)
            · linear_combination (-(qr : ℝ)) * sin_turn_sum s.theta 90 (Or.inl rfl)
        · simp only [draw_arc, endPt, deg_to_rad, realTrig]
          simp only [Option.some.injEq, Prod.mk.injEq]
          constructor <;> ring_nf

theorem processLine_motion (sl : Bool) (i : ℕ) (l : String) (s : TState ℝ)
    (hm : motionLineB l = true)
    (hok : (processLine realTrig sl i l s).2 = none) :
    ∃ p, (processLine realTrig sl i l s).1.prims.filter isMotionB =
        s.prims.filter isMotionB ++ [p] ∧
      startPt p = some (s.x, s.y) ∧
      endPt p = some ((processLine realTrig sl i l s).1.x,
        (processLine realTrig sl i l s).1.y) := by
  obtain ⟨hbm, hni, hnt⟩ := motionLineB_shape l hm
  have hsh : (lowerTok ((splitWS l.data).getD 0 []) = "reta".data ∧
      (splitWS l.data).length = 2) ∨
      (lowerTok ((splitWS l.data).getD 0 []) = "arco".data ∧
      (splitWS l.data).length = 4) := by
    have hm' := hm
    simp only [motionLineB, decide_eq_true_eq] at hm'
    exact hm'
  simp only [processLine] at hok ⊢
  rw [if_neg hbm] at hok ⊢
  rw [chain1_else (splitWS l.data) (tickPhase s) hni hnt] at hok ⊢
  dsimp only at hok ⊢
  rcases chain2_motion sl i (splitWS l.data)
      ({ tickPhase s with first_step := false }) hsh with hbad | ⟨p, hf, hst, hen⟩
  · exact absurd hok hbad
  · refine ⟨p, ?_, ?_, ?_⟩
    · rw [hf]
      dsimp only
      rw [tickPhase_motionFilter s]
    · rw [hst]
      dsimp only
      rw [(tickPhase_pose s).1, (tickPhase_pose s).2.1]
    · exact hen

/-- C6 (amended): pose continuity between motion commands holds provided no
`inicio` line occurs between them.  If a motion line succeeds from state
`s0`, then any number of non-motion, non-`inicio` lines succeed, then a
second motion line succeeds, each motion line appends exactly one motion
drawing call, the first one's geometric end point is the pose it left
behind, the second one's geometric start point is the pose it found, and
the two coincide: the end point of the first primitive equals the start
point of the second.  (An `inicio` line in between teleports the pose and
breaks the equality, which corrects the claim's unconditional reading.) -/
theorem claim_C6_amended (sl : Bool) (i1 : ℕ) (m1 m2 : String)
    (mid : List String) (s0 : TState ℝ)
    (hm1 : motionLineB m1 = true) (hm2 : motionLineB m2 = true)
    (hmid : ∀ l ∈ mid, motionLineB l = false ∧ inicioLineB l = false)
    (hok1 : (processLine realTrig sl i1 m1 s0).2 = none)
    (hok2 : (runFrom realTrig sl (i1 + 1) mid
      (processLine realTrig sl i1 m1 s0).1).2 = none)
    (hok3 : (processLine realTrig sl (i1 + 1 + mid.length) m2
      (runFrom realTrig sl (i1 + 1) mid
        (processLine realTrig sl i1 m1 s0).1).1).2 = none) :
    ∃ p1 p2,
      (processLine realTrig sl i1 m1 s0).1.prims.filter isMotionB =
        s0.prims.filter isMotionB ++ [p1] ∧
      (processLine realTrig sl (i1 + 1 + mid.length) m2
          (runFrom realTrig sl (i1 + 1) mid
            (processLine realTrig sl i1 m1 s0).1).1).1.prims.filter isMotionB =
        ((runFrom realTrig sl (i1 + 1) mid
            (processLine realTrig sl i1 m1 s0).1).1).prims.filter isMotionB
          ++ [p2] ∧
      endPt p1 = some ((processLine realTrig sl i1 m1 s0).1.x,
        (processLine realTrig sl i1 m1 s0).1.y) ∧
      startPt p2 = some ((runFrom realTrig sl (i1 + 1) mid
          (processLine realTrig sl i1 m1 s0).1).1.x,
        (runFrom realTrig sl (i1 + 1) mid
          (processLine realTrig sl i1 m1 s0).1).1.y) ∧
      endPt p1 = startPt p2 := by
  obtain ⟨p1, hf1, hst1, hen1⟩ := processLine_motion sl i1 m1 s0 hm1 hok1
  obtain ⟨hx, hy, hfm⟩ := runFrom_preserve realTrig sl mid (i1 + 1)
    (processLine realTrig sl i1 m1 s0).1 hmid hok2
  obtain ⟨p2, hf2, hst2, hen2⟩ := processLine_motion sl (i1 + 1 + mid.length) m2
    (runFrom realTrig sl (i1 + 1) mid
      (processLine realTrig sl i1 m1 s0).1).1 hm2 hok3
  refine ⟨p1, p2, hf1, hf2, hen1, hst2, ?_⟩
  rw [hen1, hst2, hx, hy]

theorem claim_C6_amended_witness :
    (motionLineB "reta 100" = true ∧
      (∀ l ∈ (["tamanho 9 9"] : List String),
        motionLineB l = false ∧ inicioLineB l = false) ∧
      (processLine realTrig false 0 "reta 100" initState).2 = none ∧
      (runFrom realTrig false (0 + 1) ["tamanho 9 9"]
        (processLine realTrig false 0 "reta 100" initState).1).2 = none ∧
      (processLine realTrig false (0 + 1 + (["tamanho 9 9"] : List String).length)
        "reta 100"
        (runFrom realTrig false (0 + 1) ["tamanho 9 9"]
          (processLine realTrig false 0 "reta 100" initState).1).1).2 = none) ∧
    (∃ p1 p2,
      (processLine realTrig false 0 "reta 100" initState).1.prims.filter
          isMotionB =
        initState.prims.filter isMotionB ++ [p1] ∧
      (processLine realTrig false (0 + 1 + (["tamanho 9 9"] : List String).length)
          "reta 100"
          (runFrom realTrig false (0 + 1) ["tamanho 9 9"]
            (processLine realTrig false 0 "reta 100" initState).1).1).1.prims.filter
          isMotionB =
        ((runFrom realTrig false (0 + 1) ["tamanho 9 9"]
            (processLine realTrig false 0 "reta 100" initState).1).1).prims.filter
          isMotionB ++ [p2] ∧
      endPt p1 = some ((processLine realTrig false 0 "reta 100" initState).1.x,
        (processLine realTrig false 0 "reta 100" initState).1.y) ∧
      startPt p2 = some ((runFrom realTrig false (0 + 1) ["tamanho 9 9"]
          (processLine realTrig false 0 "reta 100" initState).1).1.x,
        (runFrom realTrig false (0 + 1) ["tamanho 9 9"]
          (processLine realTrig false 0 "reta 100" initState).1).1.y) ∧
      endPt p1 = startPt p2) :=
  ⟨⟨by decide, by decide, rfl, rfl, rfl⟩,
    claim_C6_amended false 0 "reta 100" "reta 100" ["tamanho 9 9"] initState
      (by decide) (by decide) (by decide) rfl rfl rfl⟩

/-- C6, counterexample to the unconditional claim: in the successful run
`["reta 100", "inicio 5 5 0", "reta 100"]` the two `reta` lines are
consecutive motion commands, yet the end point of the first emitted motion
drawing call, `(100, 0)`, differs from the start point of the second,
`(5, 5)`: the intervening `inicio` teleports the pose. -/
theorem claim_C6_cex :
    ∃ p1 p2,
      (run realTrig false ["reta 100", "inicio 5 5 0", "reta 100"]).2 = none ∧
      (run realTrig false
        ["reta 100", "inicio 5 5 0", "reta 100"]).1.prims.filter isMotionB =
        [p1, p2] ∧
      endPt p1 ≠ startPt p2 := by
  refine ⟨_, _, rfl, rfl, ?_⟩
  intro h
  have h100 : digitsVal ['1', '0', '0'] = 100 := by decide
  have h5 : digitsVal ['5'] = 5 := by decide
  have h0 : digitsVal ['0'] = 0 := by decide
  simp [endPt, startPt, draw_line, tickPhase, emit, initState, deg_to_rad,
    realTrig, h100, h5, h0] at h
